import Mathlib

/-!
Verification of the CuttingEEG document round-trip tooling.

The development shallowly embeds the three Python sources
(`export_docx.py`, `import_docx.py`, `export_to_sheets.py`) over
`List Char`.  Each Python `re` pattern used by the code is deterministic
on its alternation-free character classes, so every `re.sub` call is
embedded as a left-to-right scan (`pySub`) driven by a hand-rolled
deterministic matcher that mirrors the pattern structure; the Python
replacement callbacks are translated literally.  Python string methods
(`strip`, `lstrip`, `split`, `replace`, `startswith`, `endswith`,
`rfind`, substring `in`) are given their standard list semantics below.
-/

namespace EEG101

/-- Characters matched by Python's `\s` (ASCII range; the inputs handled
by the tool are ASCII apart from the non-breaking space, which the code
replaces explicitly). -/
def isSpaceCh (c : Char) : Bool :=
  c == ' ' || c == '\t' || c == '\n' || c == '\r' || c == '\x0b' || c == '\x0c'

/-- Characters matched by Python's `\w` (ASCII range). -/
def isWordCh (c : Char) : Bool := c.isAlphanum || c == '_'

/-- Characters of the class `[\w\.-]` used for anchors and file names. -/
def isAnchorCh (c : Char) : Bool := isWordCh c || c == '.' || c == '-'

/-- Python `str.startswith` on character lists. -/
def startsWith : List Char → List Char → Bool
  | [], _ => true
  | _ :: _, [] => false
  | a :: as, b :: bs => a == b && startsWith as bs

/-- Python `str.endswith` on character lists. -/
def endsWithL (suf l : List Char) : Bool := startsWith suf.reverse l.reverse

/-- Python substring containment (`needle in l`). -/
def containsSub (needle : List Char) : List Char → Bool
  | [] => startsWith needle []
  | c :: cs => startsWith needle (c :: cs) || containsSub needle cs

/-- Python `str.lstrip()` (strip leading whitespace). -/
def pyLstrip (l : List Char) : List Char := l.dropWhile isSpaceCh

/-- Python `str.strip()` (strip whitespace on both ends). -/
def pyStrip (l : List Char) : List Char :=
  ((l.dropWhile isSpaceCh).reverse.dropWhile isSpaceCh).reverse

/-- Python `str.split(sep)` for a single-character separator. -/
def pySplit (sep : Char) : List Char → List (List Char)
  | [] => [[]]
  | c :: cs =>
    if c == sep then [] :: pySplit sep cs
    else
      match pySplit sep cs with
      | r :: rs => (c :: r) :: rs
      | [] => [[c]]

/-- Python `str.replace(pat, rep)` (all occurrences, left to right),
with fuel for termination; the wrapper passes the list length. -/
def pyReplaceAux (pat rep : List Char) : Nat → List Char → List Char
  | 0, l => l
  | _ + 1, [] => []
  | f + 1, c :: cs =>
    if startsWith pat (c :: cs) then rep ++ pyReplaceAux pat rep f ((c :: cs).drop pat.length)
    else c :: pyReplaceAux pat rep f cs

def pyReplace (pat rep l : List Char) : List Char := pyReplaceAux pat rep l.length l

/-- Maximal munch of a nonempty run of characters satisfying `p`
(embeds a regex piece `[c]+` for a character class `c`). -/
def takeWhile1 (p : Char → Bool) (l : List Char) : Option (List Char × List Char) :=
  let t := l.takeWhile p
  if t.isEmpty then none else some (t, l.dropWhile p)

/-- Consume an expected literal. -/
def expectStr (pre l : List Char) : Option (List Char) :=
  if startsWith pre l then some (l.drop pre.length) else none

/-- One `re.sub` scan with an explicit matcher: at each position try the
matcher; on a match emit its replacement and resume after the consumed
span, otherwise keep one character and move on.  Fuel bounds the number
of steps; the wrapper passes the list length (every matcher used here
consumes at least one character). -/
def pySubAux (f : List Char → Option (List Char × List Char)) :
    Nat → List Char → List Char
  | 0, l => l
  | _ + 1, [] => []
  | fuel + 1, c :: cs =>
    match f (c :: cs) with
    | some (rep, rest) => rep ++ pySubAux f fuel rest
    | none => c :: pySubAux f fuel cs

def pySub (f : List Char → Option (List Char × List Char)) (l : List Char) : List Char :=
  pySubAux f l.length l

/-- `re.search` viewed as a Boolean: does the matcher succeed at any
position? -/
def pySearch (f : List Char → Option (List Char × List Char)) : List Char → Bool
  | [] => (f []).isSome
  | c :: cs => (f (c :: cs)).isSome || pySearch f cs

/-- Last index at which `needle` occurs (Python `str.rfind`, `none` for
not found). -/
def rfindAux (needle : List Char) : List Char → Option Nat
  | [] => none
  | c :: cs =>
    match rfindAux needle cs with
    | some k => some (k + 1)
    | none => if startsWith needle (c :: cs) then some 0 else none

/-- Python slice `l[:i]` (negative indices count from the end). -/
def pySliceTo (i : Int) (l : List Char) : List Char :=
  if i < 0 then l.take (l.length + i).toNat else l.take i.toNat

/-- Python slice `l[i:]` (negative indices count from the end). -/
def pySliceFrom (i : Int) (l : List Char) : List Char :=
  if i < 0 then l.drop (l.length + i).toNat else l.drop i.toNat

/-- Python truthiness of an optional string (`None` and `""` are falsy). -/
def pyTruthy : Option (List Char) → Bool
  | none => false
  | some l => !l.isEmpty

/-- Join lines with newlines (`'\n'.join`). -/
def joinLines : List (List Char) → List Char
  | [] => []
  | [l] => l
  | l :: ls => l ++ '\n' :: joinLines ls

/-- The registered unit files (`FILES` in both scripts). -/
def FILES : List (List Char) :=
  [("introduction.md").toList, ("validity.md").toList,
   ("democratization.md").toList, ("responsibility.md").toList,
   ("conclusion.md").toList, ("references.md").toList]

/-- `filename.replace('.', '_')` — the anchor-safe encoded unit name. -/
def safeName (f : List Char) : List Char := f.map (fun c => if c == '.' then '_' else c)

/-- `filename.replace('.', '-').lower()` — the unit's derived anchor. -/
def fileAnchor (f : List Char) : List Char :=
  f.map (fun c => Char.toLower (if c == '.' then '-' else c))

/-!  Link codec, export direction (`export_docx.py`, `process_links`).
The pattern is `\[([^\]]+)\]\(([^)]+)\)(\s*\{ *#[^}]+\})?`; all its
character classes exclude the literal that follows them, so maximal
munch is exact. -/

/-- Matcher for the optional attribute group `\s*\x7b *#[^\x7d]+\x7d`;
returns the raw matched span (as captured by group 3) and the rest. -/
def matchAttrGroup (l : List Char) : Option (List Char × List Char) :=
  let ws := l.takeWhile isSpaceCh
  match l.dropWhile isSpaceCh with
  | '\x7b' :: r2 =>
    let sp := r2.takeWhile (fun c => c == ' ')
    match r2.dropWhile (fun c => c == ' ') with
    | '#' :: r4 =>
      match takeWhile1 (fun c => c != '\x7d') r4 with
      | some (body, '\x7d' :: r6) =>
        some (ws ++ '\x7b' :: sp ++ '#' :: body ++ ['\x7d'], r6)
      | _ => none
    | _ => none
  | _ => none

/-- Matcher for `\[([^\]]+)\]\(([^)]+)\)(\s*\x7b *#[^\x7d]+\x7d)?`:
captured text, url, optional raw attribute, and the rest of the input. -/
def matchExportLink (l : List Char) :
    Option ((List Char × List Char × Option (List Char)) × List Char) :=
  match l with
  | '[' :: r1 =>
    match takeWhile1 (fun c => c != ']') r1 with
    | some (text, ']' :: '(' :: r2) =>
      match takeWhile1 (fun c => c != ')') r2 with
      | some (url, ')' :: r3) =>
        match matchAttrGroup r3 with
        | some (attrRaw, r4) => some ((text, url, some attrRaw), r4)
        | none => some ((text, url, none), r3)
      | _ => none
    | _ => none
  | _ => none

/-- The `replace_link` callback of `process_links`: rewrites links to
registered units into flat intra-document anchors, folds an attribute
annotation into the visible text, and otherwise returns the full match
(`match.group(0)`) unchanged. -/
def replaceLinkExport (current_file text url : List Char)
    (attrRaw : Option (List Char)) : List Char :=
  let g0 : List Char :=
    '[' :: text ++ ']' :: '(' :: url ++ ')' :: (attrRaw.getD [])
  let text := match attrRaw with
    | some a => text ++ ' ' :: pyStrip a
    | none => text
  let fallback : List Char := match attrRaw with
    | some _ => '[' :: text ++ ']' :: '(' :: url ++ [')']
    | none => g0
  if containsSub ((".md").toList) url && !startsWith (("http").toList) url then
    let parts := pySplit '#' url
    let filename := parts.headD []
    let anchor : Option (List Char) := match parts with
      | _ :: p1 :: _ => some p1
      | _ => none
    if FILES.contains filename then
      if filename == current_file then
        if pyTruthy anchor then
          '[' :: text ++ ']' :: '(' :: '#' :: (anchor.getD []) ++ [')']
        else
          '[' :: text ++ ']' :: '(' :: '#' :: fileAnchor filename ++ [')']
      else
        let safe := safeName filename
        if pyTruthy anchor then
          '[' :: text ++ ']' :: '(' :: '#' :: safe ++ '_' :: '_' :: (anchor.getD []) ++ [')']
        else
          '[' :: text ++ ']' :: '(' :: '#' :: safe ++ [')']
    else fallback
  else fallback

def tryExportLink (current_file : List Char) (l : List Char) :
    Option (List Char × List Char) :=
  (matchExportLink l).map fun (g, rest) =>
    (replaceLinkExport current_file g.1 g.2.1 g.2.2, rest)

/-- `process_links(content, current_file)` from `export_docx.py`. -/
def process_links (content current_file : List Char) : List Char :=
  pySub (tryExportLink current_file) content

/-!  Link codec, import direction (`import_docx.py`, `restore_links`).
Pattern `\[([^\]]+)\]\(#([\w\.-]+)\)`. -/

def matchImportLink (l : List Char) :
    Option ((List Char × List Char) × List Char) :=
  match l with
  | '[' :: r1 =>
    match takeWhile1 (fun c => c != ']') r1 with
    | some (text, ']' :: '(' :: '#' :: r2) =>
      match takeWhile1 isAnchorCh r2 with
      | some (anchor, ')' :: r3) => some ((text, anchor), r3)
      | _ => none
    | _ => none
  | _ => none

/-- The scan over `FILES` inside `restore_links`' `replace_link`:
first file whose encoded name matches the anchor exactly
(`real_anchor = None`) or as a `safe__`-prefix
(`real_anchor = anchor[len(safe)+2:]`). -/
def findTarget : List (List Char) → List Char → Option (List Char × Option (List Char))
  | [], _ => none
  | f :: fs, anchor =>
    let safe := safeName f
    if anchor == safe then some (f, none)
    else if startsWith (safe ++ ['_', '_']) anchor then
      some (f, some (anchor.drop (safe.length + 2)))
    else findTarget fs anchor

/-- The `replace_link` callback of `restore_links`. -/
def replaceLinkImport (current_file text anchor : List Char) : List Char :=
  let g0 : List Char := '[' :: text ++ ']' :: '(' :: '#' :: anchor ++ [')']
  match findTarget FILES anchor with
  | some (target_file, real_anchor) =>
    if target_file == current_file then
      if pyTruthy real_anchor then
        '[' :: text ++ ']' :: '(' :: '#' :: (real_anchor.getD []) ++ [')']
      else
        '[' :: text ++ (("](#)").toList)
    else
      if pyTruthy real_anchor then
        '[' :: text ++ ']' :: '(' :: target_file ++ '#' :: (real_anchor.getD []) ++ [')']
      else
        '[' :: text ++ ']' :: '(' :: target_file ++ [')']
  | none => g0

def tryImportLink (current_file : List Char) (l : List Char) :
    Option (List Char × List Char) :=
  (matchImportLink l).map fun (g, rest) =>
    (replaceLinkImport current_file g.1 g.2, rest)

def restoreLinkLine (current_file l : List Char) : List Char :=
  pySub (tryImportLink current_file) l

/-- `restore_links(content_lines, anchor_map, current_file)` from
`import_docx.py` (the `anchor_map` argument is never read by the Python
function and is omitted here). -/
def restore_links (lines : List (List Char)) (current_file : List Char) :
    List (List Char) :=
  lines.map (restoreLinkLine current_file)

/-!  Inline control codec (`process_checkboxes` in `export_docx.py`,
`restore_checkboxes` in `import_docx.py`). -/

/-- Scan `[^>]+` up to (and through) a literal: at least one non-`>`
character, then the first position where the literal occurs; returns the
rest after the literal.  Embeds the regex prefix `[^>]+lit`. -/
def scanFrom (needle : List Char) : List Char → Option (List Char)
  | [] => none
  | c :: cs =>
    if startsWith needle (c :: cs) then some ((c :: cs).drop needle.length)
    else if c == '>' then none
    else scanFrom needle cs

def scanTo (needle : List Char) : List Char → Option (List Char)
  | [] => none
  | c :: cs => if c == '>' then none else scanFrom needle cs

/-- Matcher for `<input[^>]+id="(cb-[^"]+)"[^>]*>`; yields the captured
identifier and the rest. -/
def matchCbElem (l : List Char) : Option (List Char × List Char) :=
  match expectStr (("<input").toList) l with
  | none => none
  | some r1 =>
    match scanTo (("id=\x22").toList) r1 with
    | none => none
    | some r2 =>
      match expectStr (("cb-").toList) r2 with
      | none => none
      | some r3 =>
        match takeWhile1 (fun c => c != '\x22') r3 with
        | some (body, '\x22' :: r4) =>
          match r4.dropWhile (fun c => c != '>') with
          | '>' :: r5 => some ((("cb-").toList) ++ body, r5)
          | _ => none
        | _ => none

/-- Matcher for `<input[^>]+name="(pledge_[^"]+)"[^>]*>`. -/
def matchPledgeElem (l : List Char) : Option (List Char × List Char) :=
  match expectStr (("<input").toList) l with
  | none => none
  | some r1 =>
    match scanTo (("name=\x22").toList) r1 with
    | none => none
    | some r2 =>
      match expectStr (("pledge_").toList) r2 with
      | none => none
      | some r3 =>
        match takeWhile1 (fun c => c != '\x22') r3 with
        | some (body, '\x22' :: r4) =>
          match r4.dropWhile (fun c => c != '>') with
          | '>' :: r5 => some ((("pledge_").toList) ++ body, r5)
          | _ => none
        | _ => none

/-- `process_checkboxes(content)` from `export_docx.py`: the id-based
sub, then the name-based sub, each replacing the element by `[key]`. -/
def process_checkboxes (content : List Char) : List Char :=
  let content := pySub (fun l => (matchCbElem l).map fun (k, r) => ('[' :: k ++ [']'], r)) content
  pySub (fun l => (matchPledgeElem l).map fun (k, r) => ('[' :: k ++ [']'], r)) content

/-- Matcher for the bracket token `\[(cb-[^\]]+)\]`. -/
def matchCbTok (l : List Char) : Option (List Char × List Char) :=
  match l with
  | c :: r1 =>
    if c == '[' then
      match expectStr (("cb-").toList) r1 with
      | some r2 =>
        match takeWhile1 (fun c => c != ']') r2 with
        | some (body, ']' :: r3) => some ((("cb-").toList) ++ body, r3)
        | _ => none
      | none => none
    else none
  | [] => none

/-- Matcher for the bracket token `\[(pledge_[^\]]+)\]`. -/
def matchPledgeTok (l : List Char) : Option (List Char × List Char) :=
  match l with
  | c :: r1 =>
    if c == '[' then
      match expectStr (("pledge_").toList) r1 with
      | some r2 =>
        match takeWhile1 (fun c => c != ']') r2 with
        | some (body, ']' :: r3) => some ((("pledge_").toList) ++ body, r3)
        | _ => none
      | none => none
    else none
  | [] => none

/-- The canonical id-keyed control element rebuilt by `replace_cb`. -/
def cbElement (key : List Char) : List Char :=
  (("<input type=\x27checkbox\x27 checked id=\x22").toList) ++ key ++
    (("\x22 class=\x22cb-sa\x22 onchange=\x22toggleCheckboxes(event)\x22/>").toList)

/-- The canonical name-keyed control element rebuilt by `replace_pledge`. -/
def pledgeElement (key : List Char) : List Char :=
  (("<input type=\x27checkbox\x27 checked name=\x22").toList) ++ key ++
    (("\x22 class=\x22data-input\x22 />").toList)

/-- One line of `restore_checkboxes` from `import_docx.py`: the guarded
id-token sub, then the guarded name-token sub. -/
def restoreCheckboxesLine (l : List Char) : List Char :=
  let l :=
    if pySearch (fun l => (matchCbTok l).map fun (k, r) => (cbElement k, r)) l then
      pySub (fun l => (matchCbTok l).map fun (k, r) => (cbElement k, r)) l
    else l
  if pySearch (fun l => (matchPledgeTok l).map fun (k, r) => (pledgeElement k, r)) l then
    pySub (fun l => (matchPledgeTok l).map fun (k, r) => (pledgeElement k, r)) l
  else l

/-- `restore_checkboxes(lines)` from `import_docx.py`. -/
def restore_checkboxes (lines : List (List Char)) : List (List Char) :=
  lines.map restoreCheckboxesLine

/-!  Attribute-annotation codec, import direction (`restore_attributes`
in `import_docx.py`), pattern `\[(.*?) \x7b *(#[^\x7d]+) *\x7d\]\(([^)]+)\)`.
The leading `(.*?)` is lazy, so the matcher takes the shortest visible
text for which the bracketed tail parses. -/

/-- Parse ` \x7b *(#[^\x7d]+) *\x7d\]\(([^)]+)\)`; returns the attribute
group (as captured, `#` included), the url, and the rest. -/
def parseAttrTail (l : List Char) : Option (List Char × List Char × List Char) :=
  match l with
  | ' ' :: '\x7b' :: r1 =>
    match r1.dropWhile (fun c => c == ' ') with
    | '#' :: r2 =>
      match takeWhile1 (fun c => c != '\x7d') r2 with
      | some (body, '\x7d' :: ']' :: '(' :: r3) =>
        match takeWhile1 (fun c => c != ')') r3 with
        | some (url, ')' :: r4) => some ('#' :: body, url, r4)
        | _ => none
      | _ => none
    | _ => none
  | _ => none

/-- The replacement `f'[{text}]({url})\x7b\x7b {attr} \x7d\x7d'` with
`attr = group(2).strip()`. -/
def mkAttrRepl (text attrG url : List Char) : List Char :=
  '[' :: text ++ ']' :: '(' :: url ++ ')' :: '\x7b' :: ' ' ::
    pyStrip attrG ++ [' ', '\x7d']

/-- Lazy expansion of `(.*?)`: try the tail at each split point, keeping
the shortest visible text. -/
def attrScan (acc : List Char) : List Char → Option (List Char × List Char)
  | [] =>
    match parseAttrTail [] with
    | some (attrG, url, rest) => some (mkAttrRepl acc.reverse attrG url, rest)
    | none => none
  | c :: cs =>
    match parseAttrTail (c :: cs) with
    | some (attrG, url, rest) => some (mkAttrRepl acc.reverse attrG url, rest)
    | none => attrScan (c :: acc) cs

def matchRestoreAttr (l : List Char) : Option (List Char × List Char) :=
  match l with
  | '[' :: r1 => attrScan [] r1
  | _ => none

def restoreAttrLine (l : List Char) : List Char := pySub matchRestoreAttr l

/-- `restore_attributes(lines)` from `import_docx.py`. -/
def restore_attributes (lines : List (List Char)) : List (List Char) :=
  lines.map restoreAttrLine

/-!  Block flattening engine (`unindent_blocks` in `export_docx.py`). -/

/-- Anchored test for `^\s*///\s+\w+` (a block-start line). -/
def isStartLine (l : List Char) : Bool :=
  let r := l.dropWhile isSpaceCh
  startsWith (("///").toList) r &&
    (match r.drop 3 with
     | c :: _ =>
       isSpaceCh c &&
         (match (r.drop 3).dropWhile isSpaceCh with
          | w :: _ => isWordCh w
          | [] => false)
     | [] => false)

/-- Anchored test for `^\s*///\s*$` (a block-end line). -/
def isEndLine (l : List Char) : Bool :=
  let r := l.dropWhile isSpaceCh
  startsWith (("///").toList) r && (r.drop 3).all isSpaceCh

/-- One line of `unindent_blocks`: returns the lines appended to the
output and the new stack depth.  Depth is an `Int` exactly as in the
Python source, decremented on a block end and clamped at zero. -/
def unindentStep (depth : Int) (line : List Char) : List (List Char) × Int :=
  if isStartLine line then ([pyStrip line, []], depth + 1)
  else if isEndLine line then
    let d := depth - 1
    let d := if d < 0 then 0 else d
    ([pyStrip line, []], d)
  else
    let currentIndent := (line.takeWhile (fun c => c == ' ')).length
    let indentToRemove := depth * 4
    let processed :=
      if (currentIndent : Int) ≥ indentToRemove then line.drop indentToRemove.toNat
      else if pyStrip line == [] then []
      else pyLstrip line
    let stripped := pyStrip processed
    if startsWith (("type:").toList) stripped || startsWith (("open:").toList) stripped ||
        startsWith (("<input").toList) stripped || startsWith (("[cb-").toList) stripped ||
        startsWith (("[pledge_").toList) stripped then
      ([processed, []], depth)
    else ([processed], depth)

/-- `unindent_blocks(content)` from `export_docx.py`. -/
def unindent_blocks (content : List Char) : List Char :=
  let res := (pySplit '\n' content).foldl
    (fun acc l =>
      let st := unindentStep acc.2 l
      (acc.1 ++ st.1, st.2))
    (([] : List (List Char)), (0 : Int))
  joinLines res.1

/-- Final depth of the flattening engine over a list of lines (the fold
of `unindentStep` from the initial depth `0`). -/
def unindentDepthAfter (lines : List (List Char)) : Int :=
  lines.foldl (fun d l => (unindentStep d l).2) 0

/-- `escape_html(content)` from `export_docx.py`. -/
def escape_html (content : List Char) : List Char :=
  pyReplace ((">").toList) (("&gt;").toList)
    (pyReplace (("<").toList) (("&lt;").toList) content)

/-!  Block reconstruction engine (`process_content` in
`import_docx.py`). -/

/-- Anchored match for `^\s*///\s+(\w+)(.*)`: the block type and the
rest of the start tag. -/
def matchStart (l : List Char) : Option (List Char × List Char) :=
  let r := l.dropWhile isSpaceCh
  if startsWith (("///").toList) r then
    let r2 := r.drop 3
    if (r2.takeWhile isSpaceCh).isEmpty then none
    else
      let r3 := r2.dropWhile isSpaceCh
      let w := r3.takeWhile isWordCh
      if w.isEmpty then none else some (w, r3.drop w.length)
  else none

/-- The per-unit reconstruction state: the indent stack (top first,
frames `(indent, blockType)`) and the output buffer. -/
structure RecSt where
  stack : List (Nat × Option (List Char))
  buffer : List (List Char)
deriving DecidableEq

/-- One (already unescaped) line of the main pass of `process_content`:
block starts push `current + per-type increment` and are emitted at the
current indent; block ends pop (guarded) and are emitted at the parent
indent; content is indented per the owning block's type. -/
def handleLine (st : RecSt) (line : List Char) : RecSt :=
  let top := st.stack.headD (0, none)
  let currentIndent := top.1
  let currentBlockType := top.2
  match matchStart line with
  | some (blockType, restOfTag) =>
    let tagIndent := currentIndent
    let indented := List.replicate tagIndent ' ' ++ line
    let newIndent := tagIndent +
      (if blockType == ("html").toList then
        (if containsSub (("ul.tasklist").toList) restOfTag then 2
         else if containsSub (("li").toList) restOfTag then 2
         else 4)
       else if blockType == ("details").toList then 0
       else 4)
    { stack := (newIndent, some blockType) :: st.stack,
      buffer := st.buffer ++ [indented] }
  | none =>
    if isEndLine line then
      let stack2 := if st.stack.length > 1 then st.stack.tail else st.stack
      let parentIndent := (stack2.headD (0, none)).1
      { stack := stack2, buffer := st.buffer ++ [List.replicate parentIndent ' ' ++ line] }
    else
      if currentBlockType == some (("details").toList) then
        let stripped := pyStrip line
        let indented :=
          if startsWith (("type:").toList) stripped || startsWith (("open:").toList) stripped then
            List.replicate (currentIndent + 4) ' ' ++ line
          else List.replicate currentIndent ' ' ++ line
        { st with buffer := st.buffer ++ [indented] }
      else
        if pyStrip line == [] then { st with buffer := st.buffer ++ [[]] }
        else
          let strippedLine := pyLstrip line
          let indented :=
            if currentBlockType == some (("details").toList) &&
                (startsWith (("type:").toList) strippedLine ||
                 startsWith (("open:").toList) strippedLine) then
              List.replicate (currentIndent + 4) ' ' ++ strippedLine
            else List.replicate currentIndent ' ' ++ strippedLine
          { st with buffer := st.buffer ++ [indented] }

/-- Per-line unescape of the external converter's escaping, plus the
trailing hard-break backslash strip (`process_content`, step 2). -/
def unescapeLine (l : List Char) : List Char :=
  let l := pyReplace (("\\|").toList) (("|").toList) l
  let l := pyReplace (("\\<").toList) (("<").toList) l
  let l := pyReplace (("\\>").toList) ((">").toList) l
  let l := pyReplace (("\\_").toList) (("_").toList) l
  let l := pyReplace (("\\[").toList) (("[").toList) l
  let l := pyReplace (("\\]").toList) (("]").toList) l
  let l := pyReplace ([' ']) ([' ']) l
  if endsWithL (("\\").toList) l then l.dropLast else l

/-- Match the unit boundary marker `\*\*=== FILE: ([\w\.-]+) ===\*\*`
at this position. -/
def matchFileMarker (l : List Char) : Option (List Char) :=
  match expectStr (("**=== FILE: ").toList) l with
  | none => none
  | some r1 =>
    match takeWhile1 isAnchorCh r1 with
    | some (name, r2) => if startsWith ((" ===**").toList) r2 then some name else none
    | none => none

/-- `re.search` of the marker pattern over a line. -/
def searchFileMarker : List Char → Option (List Char)
  | [] => none
  | c :: cs =>
    match matchFileMarker (c :: cs) with
    | some n => some n
    | none => searchFileMarker cs

/-- Occurrence of `\s///\s*$` somewhere in the line (the guard of
the pre-pass of the import). -/
def searchEndTag : List Char → Bool
  | [] => false
  | c :: cs =>
    (isSpaceCh c && startsWith (("///").toList) cs && (cs.drop 3).all isSpaceCh) ||
      searchEndTag cs

/-- The import pre-pass on one line: a line whose stripped form ends in
`///` without being exactly `///`, and which matches `\s///\s*$`, is
split at the last occurrence of `///` (Python `rfind` plus slices);
every other line passes through. -/
def prePassLine (l : List Char) : List (List Char) :=
  let stripped := pyStrip l
  if endsWithL (("///").toList) stripped && stripped != ("///").toList then
    if searchEndTag l then
      let idx : Int :=
        match rfindAux (("///").toList) l with
        | some k => (k : Int)
        | none => -1
      [pySliceTo idx l, pySliceFrom idx l]
    else [l]
  else [l]

/-- First non-blank line of a list together with the number of blank
lines skipped before it (`find_next_non_blank` in `clean_buffer`). -/
def findNextNB : List (List Char) → Option (Nat × List Char)
  | [] => none
  | x :: xs =>
    if pyStrip x == [] then (findNextNB xs).map (fun p => (p.1 + 1, p.2))
    else some (0, x)

/-- The scan of `clean_buffer`, re-merging pairs split for export
safety; fuel bounds the iterations (each consumes at least one line). -/
def cleanAux : Nat → List (List Char) → List (List Char)
  | 0, ls => ls
  | _ + 1, [] => []
  | fuel + 1, line :: rest =>
    match findNextNB rest with
    | some (skips, next) =>
      if containsSub (("/// details").toList) line && containsSub (("type:").toList) next then
        line :: cleanAux fuel (rest.drop skips)
      else if containsSub (("type:").toList) line && containsSub (("open:").toList) next then
        line :: next :: cleanAux fuel (rest.drop (skips + 1))
      else if (containsSub (("type:").toList) line || containsSub (("open:").toList) line) &&
          pyStrip next != [] && !startsWith (("open:").toList) (pyStrip next) &&
          !startsWith (("///").toList) (pyStrip next) then
        line :: [] :: next :: cleanAux fuel (rest.drop (skips + 1))
      else if containsSub (("/// html").toList) line && containsSub (("li").toList) line then
        line ::
          ((match rest with
            | r :: _ => if pyStrip r != [] then ([] : List Char) :: cleanAux fuel rest
                        else cleanAux fuel rest
            | [] => cleanAux fuel rest))
      else if (containsSub (("<input").toList) line || containsSub (("[cb-").toList) line ||
          containsSub (("[pledge_").toList) line) && pyStrip next != [] && skips > 0 then
        line :: next :: cleanAux fuel (rest.drop (skips + 1))
      else line :: cleanAux fuel rest
    | none => line :: cleanAux fuel rest

/-- `clean_buffer(lines)` from `import_docx.py`. -/
def clean_buffer (lines : List (List Char)) : List (List Char) :=
  let lines := lines.dropWhile (fun l => pyStrip l == [])
  cleanAux lines.length lines

/-- Python dict assignment `d[k] = v` on an insertion-ordered
association list. -/
def dictSet (d : List (List Char × List (List Char))) (k : List Char)
    (v : List (List Char)) : List (List Char × List (List Char)) :=
  if d.any (fun p => p.1 == k) then d.map (fun p => if p.1 == k then (k, v) else p)
  else d ++ [(k, v)]

/-- Full per-line state of `process_content`. -/
structure PCSt where
  currentFile : Option (List Char)
  files : List (List Char × List (List Char))
  buffer : List (List Char)
  stack : List (Nat × Option (List Char))

/-- Initial state of `process_content` (no current unit, seed stack). -/
def initPCSt : PCSt :=
  { currentFile := none, files := [], buffer := [], stack := [(0, none)] }

/-- One line of the main pass of `process_content`: marker lines flush
and clean the previous unit's buffer and reset the stack; other lines
are skipped before the first marker, else unescaped and handled. -/
def processLine (st : PCSt) (line : List Char) : PCSt :=
  match searchFileMarker line with
  | some name =>
    { currentFile := some name
      files :=
        match st.currentFile with
        | some f => dictSet st.files f (clean_buffer st.buffer)
        | none => st.files
      buffer := []
      stack := [(0, none)] }
  | none =>
    match st.currentFile with
    | none => st
    | some _ =>
      let line := unescapeLine line
      let hs := handleLine { stack := st.stack, buffer := st.buffer } line
      { st with stack := hs.stack, buffer := hs.buffer }

/-- `process_content(content, anchor_map)` from `import_docx.py` (the
`anchor_map` argument is never read by the Python function and is
omitted): the pre-pass, the main per-line pass, and the final flush. -/
def process_content (content : List Char) : List (List Char × List (List Char)) :=
  let splitLines := ((pySplit '\n' content).map prePassLine).flatten
  let fin := splitLines.foldl processLine initPCSt
  match fin.currentFile with
  | some f => dictSet fin.files f (clean_buffer fin.buffer)
  | none => fin.files

/-- Stack of the reconstruction engine after a list of (pre-pass output)
lines. -/
def pcStackAfter (lines : List (List Char)) : List (Nat × Option (List Char)) :=
  (lines.foldl processLine initPCSt).stack

/-- Collapse of `\n\x7b3,\x7d` runs to `\n\n` (the final cleanup of
the importing `main`), with fuel. -/
def collapseAux : Nat → List Char → List Char
  | 0, l => l
  | _ + 1, [] => []
  | fuel + 1, c :: cs =>
    if c == '\n' then
      let n := (cs.takeWhile (fun c => c == '\n')).length + 1
      let rest := cs.dropWhile (fun c => c == '\n')
      (if n ≥ 3 then ['\n', '\n'] else List.replicate n '\n') ++ collapseAux fuel rest
    else c :: collapseAux fuel cs

def collapseNewlines (l : List Char) : List Char := collapseAux l.length l

/-- The per-unit post-processing applied by the import `main` before the
unit file is written: link restoration, attribute restoration, checkbox
restoration, joining, blank-run collapsing. -/
def finalize_unit (filename : List Char) (lines : List (List Char)) : List Char :=
  collapseNewlines (joinLines (restore_checkboxes (restore_attributes
    (restore_links lines filename))))

/-- Events of the import `main` after the external converter returned
the linear document: the completion of `process_content` over all
units, then one full-content write per unit. -/
inductive ImportEv where
  | reconstructed (files : List (List Char × List (List Char)))
  | wrote (filename : List Char) (content : List Char)
deriving DecidableEq

/-- The effect trace of the import `main` on a converter output:
`process_content` runs to completion over the whole document before the
write loop emits one `wrote` event per unit, each carrying that unit's
fully restored content. -/
def import_trace (content : List Char) : List ImportEv :=
  let files := process_content content
  ImportEv.reconstructed files ::
    files.map (fun p => ImportEv.wrote p.1 (finalize_unit p.1 p.2))

/-!  Anonymized spreadsheet export (`export_to_sheets.py`). -/

/-- `EXCLUDED_COLUMNS` from `export_to_sheets.py`. -/
def EXCLUDED_COLUMNS : List (List Char) :=
  [("show_name").toList, ("created_at").toList, ("first_name").toList,
   ("last_name").toList, ("affiliation").toList, ("email").toList,
   ("orcid").toList, ("comment").toList]

/-- A fetched record: an insertion-ordered dict of column name to value
(values are opaque strings here). -/
abbrev Row : Type := List (List Char × List Char)

/-- The per-row dict comprehension of `anonymize_data`. -/
def anonRow (row : Row) : Row :=
  row.filter (fun kv => !(EXCLUDED_COLUMNS.contains kv.1))

/-- `anonymize_data(data)` from `export_to_sheets.py`. -/
def anonymize_data (data : List Row) : List Row :=
  if data.isEmpty then [] else data.map anonRow

/-- Two strings differing at an index below both lengths; used to state
that no registered encoded unit name can be confused with another, even
when followed by arbitrary text. -/
def hasEarlyDiff : List Char → List Char → Bool
  | a :: as, b :: bs => a != b || hasEarlyDiff as bs
  | _, _ => false

/-- The alphabet of the inline-control identifier suffixes authored by
the documents (`cb-1-1`, `pledge_1_1_1`, …): digits, dash, underscore. -/
def isKeyCh (c : Char) : Bool := c.isDigit || c == '-' || c == '_'

/-!  Helper lemmas. -/

theorem startsWith_append_self (l t : List Char) : startsWith l (l ++ t) = true := by
  induction l with
  | nil => rfl
  | cons a as ih => simp [startsWith, ih]

theorem startsWith_weaken (n a l : List Char) (h : startsWith (n ++ a) l = true) :
    startsWith n l = true := by
  induction n generalizing l with
  | nil => rfl
  | cons c cs ih =>
    cases l with
    | nil => simp [startsWith] at h
    | cons d ds =>
      simp only [List.cons_append, startsWith, Bool.and_eq_true] at h ⊢
      exact ⟨h.1, ih ds h.2⟩

theorem startsWith_mono (n l r : List Char) (h : startsWith n l = true) :
    startsWith n (l ++ r) = true := by
  induction n generalizing l with
  | nil => rfl
  | cons c cs ih =>
    cases l with
    | nil => simp [startsWith] at h
    | cons d ds =>
      simp only [List.cons_append, startsWith, Bool.and_eq_true] at h ⊢
      exact ⟨h.1, ih ds h.2⟩

theorem expectStr_append (pre rest : List Char) :
    expectStr pre (pre ++ rest) = some rest := by
  simp [expectStr, startsWith_append_self, List.drop_left]

theorem hasEarlyDiff_not_startsWith (l1 l2 : List Char)
    (h : hasEarlyDiff l1 l2 = true) (t : List Char) :
    startsWith l1 (l2 ++ t) = false := by
  induction l1 generalizing l2 with
  | nil => simp [hasEarlyDiff] at h
  | cons a as ih =>
    cases l2 with
    | nil => simp [hasEarlyDiff] at h
    | cons b bs =>
      simp only [hasEarlyDiff, Bool.or_eq_true, bne_iff_ne, ne_eq] at h
      simp only [List.cons_append, startsWith]
      rcases h with h | h
      · simp [beq_eq_false_iff_ne.mpr h]
      · simp [ih bs h]

theorem hasEarlyDiff_not_startsWith_ext (l1 l2 u t : List Char)
    (h : hasEarlyDiff l1 l2 = true) :
    startsWith (l1 ++ u) (l2 ++ t) = false := by
  by_contra hc
  rw [Bool.not_eq_false] at hc
  have := startsWith_weaken l1 u _ hc
  rw [hasEarlyDiff_not_startsWith l1 l2 h t] at this
  exact Bool.false_ne_true this

theorem hasEarlyDiff_ne_append (l1 l2 t : List Char)
    (h : hasEarlyDiff l1 l2 = true) : l2 ++ t ≠ l1 := by
  intro he
  have hself : startsWith l1 (l2 ++ t) = true := by
    rw [he]
    have hs := startsWith_append_self l1 []
    rwa [List.append_nil] at hs
  rw [hasEarlyDiff_not_startsWith l1 l2 h t] at hself
  exact Bool.false_ne_true hself

theorem containsSub_mono (n l r : List Char) (h : containsSub n l = true) :
    containsSub n (l ++ r) = true := by
  induction l with
  | nil =>
    simp only [containsSub] at h
    cases n with
    | nil =>
      cases r with
      | nil => exact h
      | cons c cs => simp [containsSub, startsWith]
    | cons m ms => simp [startsWith] at h
  | cons c cs ih =>
    simp only [containsSub, Bool.or_eq_true] at h
    rcases h with h | h
    · simp only [List.cons_append, containsSub, Bool.or_eq_true]
      exact Or.inl (startsWith_mono n (c :: cs) r h)
    · simp only [List.cons_append, containsSub, Bool.or_eq_true]
      exact Or.inr (ih h)

theorem takeWhile_append_cons (p : Char → Bool) (xs : List Char) (c : Char)
    (ys : List Char) (hxs : ∀ x ∈ xs, p x = true) (hc : p c = false) :
    (xs ++ c :: ys).takeWhile p = xs := by
  induction xs with
  | nil => simp [List.takeWhile_cons, hc]
  | cons a as ih =>
    have ha : p a = true := hxs a (by simp)
    have ih' := ih (fun x hx => hxs x (by simp [hx]))
    simp only [List.cons_append, List.takeWhile_cons, ha, if_true, ih']

theorem dropWhile_append_cons (p : Char → Bool) (xs : List Char) (c : Char)
    (ys : List Char) (hxs : ∀ x ∈ xs, p x = true) (hc : p c = false) :
    (xs ++ c :: ys).dropWhile p = c :: ys := by
  induction xs with
  | nil => simp [List.dropWhile_cons, hc]
  | cons a as ih =>
    have ha : p a = true := hxs a (by simp)
    have ih' := ih (fun x hx => hxs x (by simp [hx]))
    simp only [List.cons_append, List.dropWhile_cons, ha, if_true, ih']

theorem takeWhile1_append (p : Char → Bool) (xs : List Char) (c : Char)
    (ys : List Char) (hne : xs ≠ []) (hxs : ∀ x ∈ xs, p x = true)
    (hc : p c = false) :
    takeWhile1 p (xs ++ c :: ys) = some (xs, c :: ys) := by
  unfold takeWhile1
  rw [takeWhile_append_cons p xs c ys hxs hc, dropWhile_append_cons p xs c ys hxs hc]
  simp [List.isEmpty_iff, hne]

theorem pySubAux_nil (f : List Char → Option (List Char × List Char)) (k : Nat) :
    pySubAux f k [] = [] := by
  cases k <;> rfl

theorem pySub_single (f : List Char → Option (List Char × List Char))
    (c : Char) (cs rep : List Char) (h : f (c :: cs) = some (rep, [])) :
    pySub f (c :: cs) = rep := by
  simp [pySub, pySubAux, h, pySubAux_nil]

theorem pySplit_no_sep (sep : Char) (l : List Char)
    (h : ∀ c ∈ l, (c == sep) = false) : pySplit sep l = [l] := by
  induction l with
  | nil => rfl
  | cons c cs ih =>
    have hc : (c == sep) = false := h c (by simp)
    have ih' := ih (fun x hx => h x (by simp [hx]))
    simp only [pySplit, hc, ih', Bool.false_eq_true, if_false]

theorem pySplit_append_sep (sep : Char) (b s : List Char)
    (hb : ∀ c ∈ b, (c == sep) = false) :
    pySplit sep (b ++ sep :: s) = b :: pySplit sep s := by
  induction b with
  | nil => simp [pySplit]
  | cons c cs ih =>
    have hc : (c == sep) = false := hb c (by simp)
    have ih' := ih (fun x hx => hb x (by simp [hx]))
    simp only [List.cons_append, pySplit, hc, Bool.false_eq_true, if_false,
      List.append_eq, ih']

/-!  Facts about the concrete registry `FILES`, all decidable. -/

theorem FILES_sep : ∀ f ∈ FILES, ∀ g ∈ FILES, f ≠ g →
    hasEarlyDiff (safeName f) (safeName g) = true := by decide

theorem FILES_md : ∀ f ∈ FILES, containsSub ((".md").toList) f = true := by decide

theorem FILES_http : ∀ f ∈ FILES, hasEarlyDiff (("http").toList) f = true := by decide

theorem FILES_noHash : ∀ f ∈ FILES, ∀ c ∈ f, (c == '#') = false := by decide

theorem FILES_noParen : ∀ f ∈ FILES, ∀ c ∈ f, (c != ')') = true := by decide

theorem FILES_safe_anchorCh : ∀ f ∈ FILES, ∀ c ∈ safeName f, isAnchorCh c = true := by
  decide

theorem FILES_ne_nil : ∀ f ∈ FILES, f ≠ [] := by decide

/-!  Behaviour of the `restore_links` registry scan on encoded and
unknown anchors. -/

theorem findTarget_encoded (fs : List (List Char)) (b s : List Char)
    (hb : b ∈ fs)
    (hsep : ∀ f ∈ fs, f ≠ b → hasEarlyDiff (safeName f) (safeName b) = true) :
    findTarget fs (safeName b ++ '_' :: '_' :: s) = some (b, some s) := by
  induction fs with
  | nil => cases hb
  | cons f fs ih =>
    by_cases hfb : f = b
    · subst hfb
      have hne : (safeName f ++ '_' :: '_' :: s == safeName f) = false := by
        apply beq_eq_false_iff_ne.mpr
        intro he
        have : safeName f ++ '_' :: '_' :: s ≠ safeName f := by
          intro hx
          have hlen := congrArg List.length hx
          simp [List.length_append] at hlen
        exact this he
      have hpre : startsWith (safeName f ++ ['_', '_']) (safeName f ++ '_' :: '_' :: s)
          = true := by
        have : safeName f ++ '_' :: '_' :: s = (safeName f ++ ['_', '_']) ++ s := by
          simp
        rw [this]
        exact startsWith_append_self _ s
      have hdrop : (safeName f ++ '_' :: '_' :: s).drop ((safeName f).length + 2) = s := by
        have : safeName f ++ '_' :: '_' :: s = (safeName f ++ ['_', '_']) ++ s := by
          simp
        rw [this]
        have hl : (safeName f ++ ['_', '_']).length = (safeName f).length + 2 := by
          simp
        rw [← hl, List.drop_left]
      simp [findTarget, hne, hpre, hdrop]
    · have hd := hsep f (by simp) hfb
      have hne : (safeName b ++ '_' :: '_' :: s == safeName f) = false := by
        apply beq_eq_false_iff_ne.mpr
        exact hasEarlyDiff_ne_append (safeName f) (safeName b) _ hd
      have hpre : startsWith (safeName f ++ ['_', '_']) (safeName b ++ '_' :: '_' :: s)
          = false := by
        have := hasEarlyDiff_not_startsWith_ext (safeName f) (safeName b)
          ['_', '_'] ('_' :: '_' :: s) hd
        exact this
      have hbfs : b ∈ fs := by
        rcases List.mem_cons.mp hb with h1 | h1
        · exact absurd h1.symm hfb
        · exact h1
      have ih' := ih hbfs (fun g hg hgb => hsep g (by simp [hg]) hgb)
      simp [findTarget, hne, hpre, ih']

theorem findTarget_unknown (fs : List (List Char)) (anchor : List Char)
    (h : ∀ f ∈ fs, (anchor == safeName f) = false ∧
      startsWith (safeName f ++ ['_', '_']) anchor = false) :
    findTarget fs anchor = none := by
  induction fs with
  | nil => rfl
  | cons f fs ih =>
    have hf := h f (by simp)
    have ih' := ih (fun g hg => h g (by simp [hg]))
    simp [findTarget, hf.1, hf.2, ih']

theorem contains_of_mem (a : List Char) (l : List (List Char)) (h : a ∈ l) :
    l.contains a = true := by
  induction l with
  | nil => cases h
  | cons x xs ih =>
    rcases List.mem_cons.mp h with h1 | h1
    · subst h1; simp [List.contains_cons]
    · simp only [List.contains_cons, Bool.or_eq_true]
      exact Or.inr (ih h1)

theorem bne_of_anchorCh (c x : Char) (hx : isAnchorCh x = false)
    (hc : isAnchorCh c = true) : (c != x) = true := by
  rcases eq_or_ne c x with h | h
  · rw [h] at hc; rw [hc] at hx; exact absurd hx (by simp)
  · exact bne_iff_ne.mpr h

theorem beq_false_of_anchorCh (c x : Char) (hx : isAnchorCh x = false)
    (hc : isAnchorCh c = true) : (c == x) = false := by
  have := bne_of_anchorCh c x hx hc
  simpa [bne] using this

theorem isEmpty_false_of_ne_nil (l : List Char) (h : l ≠ []) : l.isEmpty = false := by
  cases l with
  | nil => exact absurd rfl h
  | cons c cs => rfl

/-!  Evaluation of the link matchers on well-formed single-link lines. -/

theorem matchExportLink_eval (T url : List Char) (hT : T ≠ [])
    (hTc : ∀ c ∈ T, (c != ']') = true) (hu : url ≠ [])
    (huc : ∀ c ∈ url, (c != ')') = true) :
    matchExportLink ('[' :: (T ++ ']' :: '(' :: (url ++ [')']))) =
      some ((T, url, none), []) := by
  have h1 := takeWhile1_append (fun c => c != ']') T ']' ('(' :: (url ++ [')'])) hT hTc
    (by decide)
  have h2 := takeWhile1_append (fun c => c != ')') url ')' [] hu huc (by decide)
  simp only [matchExportLink, h1, h2, matchAttrGroup, List.dropWhile_nil,
    List.takeWhile_nil]

theorem matchImportLink_eval (T anchor : List Char) (hT : T ≠ [])
    (hTc : ∀ c ∈ T, (c != ']') = true) (ha : anchor ≠ [])
    (hac : ∀ c ∈ anchor, isAnchorCh c = true) :
    matchImportLink ('[' :: (T ++ ']' :: '(' :: '#' :: (anchor ++ [')']))) =
      some ((T, anchor), []) := by
  have h1 := takeWhile1_append (fun c => c != ']') T ']'
    ('(' :: '#' :: (anchor ++ [')'])) hT hTc (by decide)
  have h2 := takeWhile1_append isAnchorCh anchor ')' [] ha hac (by decide)
  simp only [matchImportLink, h1, h2]

/-- C1, counterexample: the claim quantifies over every anchor string;
for the same-unit case with `a = b = introduction.md` and the anchor
`validity_md` (a legal anchor that happens to equal the encoded name of
another registered unit), decoding the encoded link yields a cross-file
link to `validity.md`, not the claimed same-unit form
`[Go](#validity_md)`. -/
theorem claim1_counterexample :
    restore_links
        [process_links (("[Go](introduction.md#validity_md)").toList)
          (("introduction.md").toList)]
        (("introduction.md").toList)
      ≠ [("[Go](#validity_md)").toList] := by decide

/-- C1, amended: for registered units `a, b` and link text `T` (any
nonempty text without `]`), and an anchor string `s` over the anchor
alphabet `[\w.-]`: if `a ≠ b`, decoding the encoding of `[T](b#s)` while
processing `a` restores `[T](b#s)` exactly; if `a = b` and additionally
`s` neither equals a registered unit's encoded name nor starts with one
followed by the double separator `__`, the round trip yields the
same-unit form `[T](#s)`.  (The extra condition on `s` in the same-unit
case is forced by the counterexample.) -/
theorem claim1_link_codec (a b T s : List Char)
    (_ha : a ∈ FILES) (hb : b ∈ FILES)
    (hT : T ≠ []) (hTc : ∀ c ∈ T, c ≠ ']')
    (hs : s ≠ []) (hsc : ∀ c ∈ s, isAnchorCh c = true) :
    (a ≠ b →
      restore_links
          [process_links ('[' :: (T ++ ']' :: '(' :: ((b ++ '#' :: s) ++ [')']))) a] a
        = ['[' :: (T ++ ']' :: '(' :: ((b ++ '#' :: s) ++ [')']))]) ∧
    (a = b →
      (∀ f ∈ FILES, s ≠ safeName f ∧ startsWith (safeName f ++ ['_', '_']) s = false) →
      restore_links
          [process_links ('[' :: (T ++ ']' :: '(' :: ((b ++ '#' :: s) ++ [')']))) a] a
        = ['[' :: (T ++ ']' :: '(' :: '#' :: (s ++ [')']))]) := by
  have hTc' : ∀ c ∈ T, (c != ']') = true := fun c hc => bne_iff_ne.mpr (hTc c hc)
  have hu : b ++ '#' :: s ≠ [] := by simp
  have huc : ∀ c ∈ b ++ '#' :: s, (c != ')') = true := by
    intro c hc
    rcases List.mem_append.mp hc with h | h
    · exact FILES_noParen b hb c h
    · rcases List.mem_cons.mp h with h1 | h1
      · subst h1; decide
      · exact bne_of_anchorCh c ')' (by decide) (hsc c h1)
  have hmatch := matchExportLink_eval T (b ++ '#' :: s) hT hTc' hu huc
  have hcontains : containsSub ((".md").toList) (b ++ '#' :: s) = true :=
    containsSub_mono _ b _ (FILES_md b hb)
  have hhttp : startsWith (("http").toList) (b ++ '#' :: s) = false :=
    hasEarlyDiff_not_startsWith _ b (FILES_http b hb) ('#' :: s)
  have hsplit : pySplit '#' (b ++ '#' :: s) = [b, s] := by
    rw [pySplit_append_sep '#' b s (FILES_noHash b hb),
      pySplit_no_sep '#' s (fun c hc => beq_false_of_anchorCh c '#' (by decide) (hsc c hc))]
  have hcont : FILES.contains b = true := contains_of_mem b FILES hb
  have hstruthy : pyTruthy (some s) = true := by
    simp [pyTruthy, isEmpty_false_of_ne_nil s hs]
  constructor
  · intro hab
    have hba : (b == a) = false := beq_eq_false_iff_ne.mpr (fun he => hab he.symm)
    have henc : process_links ('[' :: (T ++ ']' :: '(' :: ((b ++ '#' :: s) ++ [')']))) a
        = '[' :: (T ++ ']' :: '(' :: '#' :: ((safeName b ++ '_' :: '_' :: s) ++ [')'])) := by
      apply pySub_single
      simp only [tryExportLink, hmatch, Option.map_some']
      simp only [replaceLinkExport, hcontains, hhttp, Bool.not_false, Bool.and_self,
        if_true, hsplit, List.headD_cons, hcont, hba, Bool.false_eq_true, if_false,
        hstruthy, Option.getD_some]
      simp [List.append_assoc]
    have hanc : ∀ c ∈ safeName b ++ '_' :: '_' :: s, isAnchorCh c = true := by
      intro c hc
      rcases List.mem_append.mp hc with h | h
      · exact FILES_safe_anchorCh b hb c h
      · rcases List.mem_cons.mp h with h1 | h1
        · subst h1; decide
        · rcases List.mem_cons.mp h1 with h2 | h2
          · subst h2; decide
          · exact hsc c h2
    have hanne : safeName b ++ '_' :: '_' :: s ≠ [] := by simp
    have him := matchImportLink_eval T (safeName b ++ '_' :: '_' :: s) hT hTc' hanne hanc
    have hfind := findTarget_encoded FILES b s hb (fun f hf hfb => FILES_sep f hf b hb hfb)
    have hdec : restoreLinkLine a
        ('[' :: (T ++ ']' :: '(' :: '#' :: ((safeName b ++ '_' :: '_' :: s) ++ [')'])))
        = '[' :: (T ++ ']' :: '(' :: ((b ++ '#' :: s) ++ [')'])) := by
      apply pySub_single
      simp only [tryImportLink, him, Option.map_some']
      simp only [replaceLinkImport, hfind, hba, Bool.false_eq_true, if_false,
        hstruthy, if_true, Option.getD_some]
      simp [List.append_assoc]
    simp only [restore_links, List.map_cons, List.map_nil, henc, hdec]
  · intro hab hcol
    subst hab
    have hba : (a == a) = true := beq_self_eq_true a
    have henc : process_links ('[' :: (T ++ ']' :: '(' :: ((a ++ '#' :: s) ++ [')']))) a
        = '[' :: (T ++ ']' :: '(' :: '#' :: (s ++ [')'])) := by
      apply pySub_single
      simp only [tryExportLink, hmatch, Option.map_some']
      simp only [replaceLinkExport, hcontains, hhttp, Bool.not_false, Bool.and_self,
        if_true, hsplit, List.headD_cons, hcont, hba, hstruthy, Option.getD_some]
      simp [List.append_assoc]
    have him := matchImportLink_eval T s hT hTc' hs hsc
    have hfind : findTarget FILES s = none := by
      apply findTarget_unknown
      intro f hf
      exact ⟨beq_eq_false_iff_ne.mpr (hcol f hf).1, (hcol f hf).2⟩
    have hdec : restoreLinkLine a ('[' :: (T ++ ']' :: '(' :: '#' :: (s ++ [')'])))
        = '[' :: (T ++ ']' :: '(' :: '#' :: (s ++ [')'])) := by
      apply pySub_single
      simp only [tryImportLink, him, Option.map_some']
      simp only [replaceLinkImport, hfind]
      simp [List.append_assoc]
    simp only [restore_links, List.map_cons, List.map_nil, henc, hdec]

/-- C1, witness: the amended statement at `a = introduction.md`,
`b = validity.md`, `T = Go`, `s = sec-1`, and its same-unit instance. -/
theorem claim1_witness :
    (restore_links
        [process_links (("[Go](validity.md#sec-1)").toList) (("introduction.md").toList)]
        (("introduction.md").toList)
      = [("[Go](validity.md#sec-1)").toList]) ∧
    (restore_links
        [process_links (("[Go](introduction.md#sec-1)").toList) (("introduction.md").toList)]
        (("introduction.md").toList)
      = [("[Go](#sec-1)").toList]) := by
  constructor
  · exact (claim1_link_codec (("introduction.md").toList) (("validity.md").toList)
      (("Go").toList) (("sec-1").toList) (by decide) (by decide) (by decide)
      (by decide) (by decide) (by decide)).1 (by decide)
  · exact (claim1_link_codec (("introduction.md").toList) (("introduction.md").toList)
      (("Go").toList) (("sec-1").toList) (by decide) (by decide) (by decide)
      (by decide) (by decide) (by decide)).2 rfl (by decide)

/-- C2, counterexample: exporting `[Go](validity.md#x)\x7b #y \x7d` from
unit `introduction.md` does not produce a link with visible text
`Go #y`; the attribute is folded into the text braces and all
(`process_links` appends `attr.strip()`, which keeps the braces). -/
theorem claim2_counterexample :
    process_links (("[Go](validity.md#x)\x7b #y \x7d").toList) (("introduction.md").toList)
      ≠ (("[Go #y](#validity_md__x)").toList) := by decide

/-- C2, amended: with `a = introduction.md`, `b = validity.md`, the
export of `[Go](b.md#x)\x7b #y \x7d` is the bare link with visible text
`Go \x7b #y \x7d` (the annotation folded verbatim, braces included)
targeting the combined anchor `#validity_md__x`; applying the import
side's link restoration and then attribute restoration to that
exported link yields visible text `Go`, target `validity.md#x`, and the
trailing `\x7b #y \x7d` annotation. -/
theorem claim2_example_scenario :
    process_links (("[Go](validity.md#x)\x7b #y \x7d").toList) (("introduction.md").toList)
        = (("[Go \x7b #y \x7d](#validity_md__x)").toList) ∧
    restore_attributes
        (restore_links [("[Go \x7b #y \x7d](#validity_md__x)").toList]
          (("introduction.md").toList))
      = [("[Go](validity.md#x)\x7b #y \x7d").toList] := by
  constructor
  · decide
  · decide

/-- C8, counterexample: a link with an unregistered target but carrying
an attribute annotation is not returned unchanged by the export-side
encoder — the annotation is folded into the visible text even for
external addresses. -/
theorem claim8_counterexample :
    process_links (("[T](http://x)\x7b #y \x7d").toList) (("introduction.md").toList)
      ≠ (("[T](http://x)\x7b #y \x7d").toList) := by decide

/-- C8, amended: an attribute-free link whose target is not a
registered unit (no `.md` in the url, or an `http` address, or a
filename outside the registry) is returned unchanged by
`process_links`; and an intra-document anchor reference whose anchor
matches no registered unit's encoded name (exactly or as
encoded-name-plus-`__` prefix) is left unchanged by `restore_links`.
Both embedded functions are total, so neither direction can raise. -/
theorem claim8_unresolvable_passthrough :
    (∀ (cur T url : List Char), T ≠ [] → (∀ c ∈ T, c ≠ ']') →
      url ≠ [] → (∀ c ∈ url, (c != ')') = true) →
      (containsSub ((".md").toList) url = false ∨
        startsWith (("http").toList) url = true ∨
        FILES.contains ((pySplit '#' url).headD []) = false) →
      process_links ('[' :: (T ++ ']' :: '(' :: (url ++ [')']))) cur
        = '[' :: (T ++ ']' :: '(' :: (url ++ [')']))) ∧
    (∀ (cur T anchor : List Char), T ≠ [] → (∀ c ∈ T, c ≠ ']') →
      anchor ≠ [] → (∀ c ∈ anchor, isAnchorCh c = true) →
      (∀ f ∈ FILES, anchor ≠ safeName f ∧
        startsWith (safeName f ++ ['_', '_']) anchor = false) →
      restore_links ['[' :: (T ++ ']' :: '(' :: '#' :: (anchor ++ [')']))] cur
        = ['[' :: (T ++ ']' :: '(' :: '#' :: (anchor ++ [')']))]) := by
  constructor
  · intro cur T url hT hTc hu huc hnr
    have hTc' : ∀ c ∈ T, (c != ']') = true := fun c hc => bne_iff_ne.mpr (hTc c hc)
    have hmatch := matchExportLink_eval T url hT hTc' hu huc
    apply pySub_single
    simp only [tryExportLink, hmatch, Option.map_some']
    rcases hnr with h | h | h
    · simp only [replaceLinkExport, h, Bool.false_and, Bool.false_eq_true, if_false]
      simp
    · simp only [replaceLinkExport, h, Bool.not_true, Bool.and_false,
        Bool.false_eq_true, if_false]
      simp
    · simp only [replaceLinkExport, h, Bool.false_eq_true, if_false]
      split
      · simp
      · simp
  · intro cur T anchor hT hTc ha hac hnr
    have hTc' : ∀ c ∈ T, (c != ']') = true := fun c hc => bne_iff_ne.mpr (hTc c hc)
    have him := matchImportLink_eval T anchor hT hTc' ha hac
    have hfind : findTarget FILES anchor = none := by
      apply findTarget_unknown
      intro f hf
      exact ⟨beq_eq_false_iff_ne.mpr (hnr f hf).1, (hnr f hf).2⟩
    have hdec : restoreLinkLine cur ('[' :: (T ++ ']' :: '(' :: '#' :: (anchor ++ [')'])))
        = '[' :: (T ++ ']' :: '(' :: '#' :: (anchor ++ [')'])) := by
      apply pySub_single
      simp only [tryImportLink, him, Option.map_some']
      simp only [replaceLinkImport, hfind]
      simp [List.append_assoc]
    simp only [restore_links, List.map_cons, List.map_nil, hdec]

/-- C8, witness: the amended statement at concrete inputs — export of
the external link `[T](http://x)` from `introduction.md`, import of the
plain anchor reference `[T](#sec-1)`. -/
theorem claim8_witness :
    process_links (("[T](http://x)").toList) (("introduction.md").toList)
        = (("[T](http://x)").toList) ∧
    restore_links [("[T](#sec-1)").toList] (("introduction.md").toList)
        = [("[T](#sec-1)").toList] := by
  constructor
  · exact claim8_unresolvable_passthrough.1 (("introduction.md").toList)
      (("T").toList) (("http://x").toList) (by decide) (by decide) (by decide)
      (by decide) (by decide)
  · exact claim8_unresolvable_passthrough.2 (("introduction.md").toList)
      (("T").toList) (("sec-1").toList) (by decide) (by decide) (by decide)
      (by decide) (by decide)

/-!  Lemmas for the inline control codec. -/

theorem keyCh_ne (c x : Char) (hx : isKeyCh x = false) (hc : isKeyCh c = true) :
    c ≠ x := by
  intro h
  rw [h] at hc
  rw [hc] at hx
  exact absurd hx (by simp)

theorem pySubAux_id_of_block (f : List Char → Option (List Char × List Char))
    (x : Char) (hf : ∀ c cs, c ≠ x → f (c :: cs) = none) :
    ∀ (n : Nat) (l : List Char), (∀ c ∈ l, c ≠ x) → pySubAux f n l = l
  | 0, _, _ => rfl
  | _ + 1, [], _ => rfl
  | n + 1, c :: cs, h => by
    have hc := h c (by simp)
    simp only [pySubAux, hf c cs hc]
    rw [pySubAux_id_of_block f x hf n cs (fun d hd => h d (by simp [hd]))]

theorem pySub_id_head (f : List Char → Option (List Char × List Char))
    (x : Char) (hf : ∀ c cs, c ≠ x → f (c :: cs) = none)
    (c0 : Char) (cs0 : List Char) (h0 : f (c0 :: cs0) = none)
    (hcs : ∀ c ∈ cs0, c ≠ x) : pySub f (c0 :: cs0) = c0 :: cs0 := by
  simp only [pySub, List.length_cons, pySubAux, h0]
  rw [pySubAux_id_of_block f x hf cs0.length cs0 hcs]

theorem pySearch_false_of_block (f : List Char → Option (List Char × List Char))
    (x : Char) (hf : ∀ c cs, c ≠ x → f (c :: cs) = none) (hnil : f [] = none) :
    ∀ l : List Char, (∀ c ∈ l, c ≠ x) → pySearch f l = false
  | [], _ => by simp [pySearch, hnil]
  | c :: cs, h => by
    have hc := h c (by simp)
    simp only [pySearch, hf c cs hc, Option.isSome_none, Bool.false_or]
    exact pySearch_false_of_block f x hf hnil cs (fun d hd => h d (by simp [hd]))

theorem matchCbTok_head (c : Char) (cs : List Char) (h : c ≠ '[') :
    matchCbTok (c :: cs) = none := by
  simp [matchCbTok, beq_eq_false_iff_ne.mpr h]

theorem matchPledgeTok_head (c : Char) (cs : List Char) (h : c ≠ '[') :
    matchPledgeTok (c :: cs) = none := by
  simp [matchPledgeTok, beq_eq_false_iff_ne.mpr h]

theorem matchCbElem_head (c : Char) (cs : List Char) (h : c ≠ '<') :
    matchCbElem (c :: cs) = none := by
  have hb : ('<' == c) = false := beq_eq_false_iff_ne.mpr (Ne.symm h)
  simp [matchCbElem, expectStr, startsWith, hb]

theorem matchPledgeElem_head (c : Char) (cs : List Char) (h : c ≠ '<') :
    matchPledgeElem (c :: cs) = none := by
  have hb : ('<' == c) = false := beq_eq_false_iff_ne.mpr (Ne.symm h)
  simp [matchPledgeElem, expectStr, startsWith, hb]

theorem scanFrom_skip (hd : Char) (tl u rest : List Char)
    (hu : ∀ c ∈ u, c ≠ hd ∧ c ≠ '>') :
    scanFrom (hd :: tl) (u ++ rest) = scanFrom (hd :: tl) rest := by
  induction u with
  | nil => rfl
  | cons c cs ih =>
    have hc := hu c (by simp)
    have h1 : (hd == c) = false := beq_eq_false_iff_ne.mpr (Ne.symm hc.1)
    have h2 : (c == '>') = false := beq_eq_false_iff_ne.mpr hc.2
    simp only [List.cons_append, scanFrom, startsWith, h1, Bool.false_and,
      Bool.false_eq_true, if_false, h2]
    exact ih (fun d hd' => hu d (by simp [hd']))

theorem scanTo_cb_seg (X : List Char) :
    scanTo (("id=\x22").toList)
      (((" type=\x27checkbox\x27 checked id=\x22").toList) ++ X) = some X := rfl

theorem scanTo_pledge_seg (X : List Char) :
    scanTo (("name=\x22").toList)
      (((" type=\x27checkbox\x27 checked name=\x22").toList) ++ X) = some X := rfl

theorem scanTo_id_pledge_seg (X : List Char) :
    scanTo (("id=\x22").toList)
      (((" type=\x27checkbox\x27 checked name=\x22").toList) ++ X)
      = scanFrom (("id=\x22").toList) X := rfl

theorem scanFrom_id_pledge_pre (Y : List Char) :
    scanFrom (("id=\x22").toList) ((("pledge_").toList) ++ Y)
      = scanFrom (("id=\x22").toList) Y := rfl

theorem scanFrom_id_pledge_tail :
    scanFrom (("id=\x22").toList) (("\x22 class=\x22data-input\x22 />").toList)
      = none := rfl

theorem cbElement_split (key : List Char) :
    cbElement key = ("<input").toList ++
      (((" type=\x27checkbox\x27 checked id=\x22").toList) ++
        (key ++ (("\x22 class=\x22cb-sa\x22 onchange=\x22toggleCheckboxes(event)\x22/>").toList))) := by
  have h : (("<input type=\x27checkbox\x27 checked id=\x22").toList)
      = ("<input").toList ++ ((" type=\x27checkbox\x27 checked id=\x22").toList) := by decide
  simp [cbElement, h, List.append_assoc]

theorem pledgeElement_split (key : List Char) :
    pledgeElement key = ("<input").toList ++
      (((" type=\x27checkbox\x27 checked name=\x22").toList) ++
        (key ++ (("\x22 class=\x22data-input\x22 />").toList))) := by
  have h : (("<input type=\x27checkbox\x27 checked name=\x22").toList)
      = ("<input").toList ++ ((" type=\x27checkbox\x27 checked name=\x22").toList) := by decide
  simp [pledgeElement, h, List.append_assoc]

theorem matchCbElem_eval (t : List Char) (hne : t ≠ [])
    (ht : ∀ c ∈ t, isKeyCh c = true) :
    matchCbElem (cbElement ((("cb-").toList) ++ t))
      = some ((("cb-").toList) ++ t, []) := by
  rw [cbElement_split]
  simp only [matchCbElem, expectStr_append, scanTo_cb_seg]
  rw [show (("cb-").toList) ++ t ++ (("\x22 class=\x22cb-sa\x22 onchange=\x22toggleCheckboxes(event)\x22/>").toList)
      = (("cb-").toList) ++ (t ++ '\x22' :: ((" class=\x22cb-sa\x22 onchange=\x22toggleCheckboxes(event)\x22/>").toList)) from by
    simp [List.append_assoc]]
  rw [expectStr_append]
  have h1 := takeWhile1_append (fun c => c != '\x22') t '\x22'
    ((" class=\x22cb-sa\x22 onchange=\x22toggleCheckboxes(event)\x22/>").toList) hne
    (fun c hc => bne_iff_ne.mpr (keyCh_ne c '\x22' (by decide) (ht c hc))) (by decide)
  simp only [h1]
  rfl

theorem matchPledgeElem_eval (t : List Char) (hne : t ≠ [])
    (ht : ∀ c ∈ t, isKeyCh c = true) :
    matchPledgeElem (pledgeElement ((("pledge_").toList) ++ t))
      = some ((("pledge_").toList) ++ t, []) := by
  rw [pledgeElement_split]
  simp only [matchPledgeElem, expectStr_append, scanTo_pledge_seg]
  rw [show (("pledge_").toList) ++ t ++ (("\x22 class=\x22data-input\x22 />").toList)
      = (("pledge_").toList) ++ (t ++ '\x22' :: ((" class=\x22data-input\x22 />").toList)) from by
    simp [List.append_assoc]]
  rw [expectStr_append]
  have h1 := takeWhile1_append (fun c => c != '\x22') t '\x22'
    ((" class=\x22data-input\x22 />").toList) hne
    (fun c hc => bne_iff_ne.mpr (keyCh_ne c '\x22' (by decide) (ht c hc))) (by decide)
  simp only [h1]
  rfl

theorem matchCbElem_on_pledge (t : List Char) (ht : ∀ c ∈ t, isKeyCh c = true) :
    matchCbElem (pledgeElement ((("pledge_").toList) ++ t)) = none := by
  rw [pledgeElement_split]
  simp only [matchCbElem, expectStr_append, scanTo_id_pledge_seg]
  rw [show (("pledge_").toList) ++ t ++ (("\x22 class=\x22data-input\x22 />").toList)
      = (("pledge_").toList) ++ (t ++ (("\x22 class=\x22data-input\x22 />").toList)) from by
    simp [List.append_assoc]]
  rw [scanFrom_id_pledge_pre]
  rw [show (("id=\x22").toList) = 'i' :: (("d=\x22").toList) from rfl]
  rw [scanFrom_skip 'i' (("d=\x22").toList) t _
    (fun c hc => ⟨keyCh_ne c 'i' (by decide) (ht c hc), keyCh_ne c '>' (by decide) (ht c hc)⟩)]
  rw [show ('i' :: (("d=\x22").toList)) = (("id=\x22").toList) from rfl]
  rw [scanFrom_id_pledge_tail]

theorem matchCbTok_eval (t : List Char) (hne : t ≠ [])
    (ht : ∀ c ∈ t, isKeyCh c = true) :
    matchCbTok ('[' :: ((("cb-").toList) ++ (t ++ [']'])))
      = some ((("cb-").toList) ++ t, []) := by
  simp only [matchCbTok, beq_self_eq_true, if_true, expectStr_append]
  have h1 := takeWhile1_append (fun c => c != ']') t ']' [] hne
    (fun c hc => bne_iff_ne.mpr (keyCh_ne c ']' (by decide) (ht c hc))) (by decide)
  simp only [h1]

theorem matchPledgeTok_eval (t : List Char) (hne : t ≠ [])
    (ht : ∀ c ∈ t, isKeyCh c = true) :
    matchPledgeTok ('[' :: ((("pledge_").toList) ++ (t ++ [']'])))
      = some ((("pledge_").toList) ++ t, []) := by
  simp only [matchPledgeTok, beq_self_eq_true, if_true, expectStr_append]
  have h1 := takeWhile1_append (fun c => c != ']') t ']' [] hne
    (fun c hc => bne_iff_ne.mpr (keyCh_ne c ']' (by decide) (ht c hc))) (by decide)
  simp only [h1]

theorem pySub_single' (f : List Char → Option (List Char × List Char))
    (l rep : List Char) (h : f l = some (rep, [])) (hne : l ≠ []) :
    pySub f l = rep := by
  cases l with
  | nil => exact absurd rfl hne
  | cons c cs => exact pySub_single f c cs rep h

theorem pySearch_of_match (f : List Char → Option (List Char × List Char))
    (c : Char) (cs : List Char) (h : (f (c :: cs)).isSome = true) :
    pySearch f (c :: cs) = true := by
  simp only [pySearch, h, Bool.true_or]

theorem pySearch_pledgeTok_intro (Y : List Char) :
    pySearch (fun l => (matchCbTok l).map fun (k, r) => (cbElement k, r))
        ('[' :: ((("pledge_").toList) ++ Y))
      = pySearch (fun l => (matchCbTok l).map fun (k, r) => (cbElement k, r)) Y := rfl

/-- C3: decoding a `cb-` or `pledge_` token yields the canonical
control element byte-for-byte (checked state, fixed class marker, and
for `cb-` the behaviour hook); encoding that canonical element returns
exactly the original bracketed token; and decode∘encode∘decode equals
decode.  Identifier suffixes range over the digit/dash/underscore
alphabet the documents use. -/
theorem claim3_control_canonicalization (t u : List Char)
    (htn : t ≠ []) (ht : ∀ c ∈ t, isKeyCh c = true)
    (hun : u ≠ []) (hu : ∀ c ∈ u, isKeyCh c = true) :
    (restoreCheckboxesLine ('[' :: ((("cb-").toList) ++ (t ++ [']'])))
        = cbElement ((("cb-").toList) ++ t) ∧
      process_checkboxes (cbElement ((("cb-").toList) ++ t))
        = '[' :: ((("cb-").toList) ++ (t ++ [']'])) ∧
      restoreCheckboxesLine (process_checkboxes (restoreCheckboxesLine
          ('[' :: ((("cb-").toList) ++ (t ++ [']'])))))
        = restoreCheckboxesLine ('[' :: ((("cb-").toList) ++ (t ++ [']'])))) ∧
    (restoreCheckboxesLine ('[' :: ((("pledge_").toList) ++ (u ++ [']'])))
        = pledgeElement ((("pledge_").toList) ++ u) ∧
      process_checkboxes (pledgeElement ((("pledge_").toList) ++ u))
        = '[' :: ((("pledge_").toList) ++ (u ++ [']'])) ∧
      restoreCheckboxesLine (process_checkboxes (restoreCheckboxesLine
          ('[' :: ((("pledge_").toList) ++ (u ++ [']'])))))
        = restoreCheckboxesLine ('[' :: ((("pledge_").toList) ++ (u ++ [']'])))) := by
  have hcbtokm := matchCbTok_eval t htn ht
  have hptokm := matchPledgeTok_eval u hun hu
  have hcbelm := matchCbElem_eval t htn ht
  have hpelm := matchPledgeElem_eval u hun hu
  have hlitA : ∀ c ∈ (("<input").toList), c ≠ '[' := by decide
  have hlitB : ∀ c ∈ ((" type=\x27checkbox\x27 checked id=\x22").toList), c ≠ '[' := by decide
  have hlitC : ∀ c ∈ (("cb-").toList), c ≠ '[' := by decide
  have hlitD : ∀ c ∈ (("\x22 class=\x22cb-sa\x22 onchange=\x22toggleCheckboxes(event)\x22/>").toList), c ≠ '[' := by decide
  have hlitE : ∀ c ∈ ((" type=\x27checkbox\x27 checked name=\x22").toList), c ≠ '[' := by decide
  have hlitF : ∀ c ∈ (("pledge_").toList), c ≠ '[' := by decide
  have hlitG : ∀ c ∈ (("\x22 class=\x22data-input\x22 />").toList), c ≠ '[' := by decide
  have hlitH : ∀ c ∈ (("cb-").toList), c ≠ '<' := by decide
  have hlitI : ∀ c ∈ [']'], c ≠ '<' := by decide
  have hlitJ : ∀ c ∈ (("input type=\x27checkbox\x27 checked name=\x22").toList), c ≠ '<' := by decide
  have hlitK : ∀ c ∈ (("pledge_").toList), c ≠ '<' := by decide
  have hlitL : ∀ c ∈ (("\x22 class=\x22data-input\x22 />").toList), c ≠ '<' := by decide
  have hlitM : ∀ c ∈ [']'], c ≠ '[' := by decide
  have hcbelNoBr : ∀ c ∈ cbElement ((("cb-").toList) ++ t), c ≠ '[' := by
    rw [cbElement_split]
    intro c hc
    rcases List.mem_append.mp hc with h | h
    · exact hlitA c h
    rcases List.mem_append.mp h with h | h
    · exact hlitB c h
    rcases List.mem_append.mp h with h | h
    · rcases List.mem_append.mp h with h | h
      · exact hlitC c h
      · exact keyCh_ne c '[' (by decide) (ht c h)
    · exact hlitD c h
  have hpelNoBr : ∀ c ∈ pledgeElement ((("pledge_").toList) ++ u), c ≠ '[' := by
    rw [pledgeElement_split]
    intro c hc
    rcases List.mem_append.mp hc with h | h
    · exact hlitA c h
    rcases List.mem_append.mp h with h | h
    · exact hlitE c h
    rcases List.mem_append.mp h with h | h
    · rcases List.mem_append.mp h with h | h
      · exact hlitF c h
      · exact keyCh_ne c '[' (by decide) (hu c h)
    · exact hlitG c h
  -- decode: cb token
  have hdecCb : restoreCheckboxesLine ('[' :: ((("cb-").toList) ++ (t ++ [']'])))
      = cbElement ((("cb-").toList) ++ t) := by
    have hg1 : pySearch (fun l => (matchCbTok l).map fun (k, r) => (cbElement k, r))
        ('[' :: ((("cb-").toList) ++ (t ++ [']']))) = true := by
      apply pySearch_of_match
      show ((matchCbTok ('[' :: ((("cb-").toList) ++ (t ++ [']'])))).map
        (fun (k, r) => (cbElement k, r))).isSome = true
      rw [hcbtokm]
      rfl
    have hsub1 : pySub (fun l => (matchCbTok l).map fun (k, r) => (cbElement k, r))
        ('[' :: ((("cb-").toList) ++ (t ++ [']']))) = cbElement ((("cb-").toList) ++ t) := by
      apply pySub_single
      show (matchCbTok ('[' :: ((("cb-").toList) ++ (t ++ [']'])))).map
        (fun (k, r) => (cbElement k, r)) = some (cbElement ((("cb-").toList) ++ t), [])
      rw [hcbtokm]
      rfl
    have hg2 : pySearch (fun l => (matchPledgeTok l).map fun (k, r) => (pledgeElement k, r))
        (cbElement ((("cb-").toList) ++ t)) = false := by
      apply pySearch_false_of_block _ '['
      · intro c cs h; simp [matchPledgeTok_head c cs h]
      · rfl
      · exact hcbelNoBr
    simp only [restoreCheckboxesLine, hg1, if_true, hsub1, hg2, Bool.false_eq_true,
      if_false]
  -- encode: cb element
  have hencCb : process_checkboxes (cbElement ((("cb-").toList) ++ t))
      = '[' :: ((("cb-").toList) ++ (t ++ [']'])) := by
    have hs1 : pySub (fun l => (matchCbElem l).map fun (k, r) => ('[' :: k ++ [']'], r))
        (cbElement ((("cb-").toList) ++ t))
        = '[' :: ((("cb-").toList) ++ (t ++ [']'])) := by
      have := pySub_single' (fun l => (matchCbElem l).map fun (k, r) => ('[' :: k ++ [']'], r))
        (cbElement ((("cb-").toList) ++ t)) ('[' :: ((("cb-").toList) ++ t ++ [']']))
        (by show (matchCbElem (cbElement ((("cb-").toList) ++ t))).map
              (fun (k, r) => ('[' :: k ++ [']'], r))
            = some ('[' :: ((("cb-").toList) ++ t ++ [']']), [])
            rw [hcbelm]
            rfl)
        (by rw [cbElement_split]; simp)
      rw [this]
      simp [List.append_assoc]
    have hs2 : pySub (fun l => (matchPledgeElem l).map fun (k, r) => ('[' :: k ++ [']'], r))
        ('[' :: ((("cb-").toList) ++ (t ++ [']'])))
        = '[' :: ((("cb-").toList) ++ (t ++ [']'])) := by
      apply pySub_id_head _ '<'
      · intro c cs h; simp [matchPledgeElem_head c cs h]
      · simp [matchPledgeElem_head '[' _ (by decide)]
      · intro c hc
        rcases List.mem_append.mp hc with h | h
        · exact hlitH c h
        rcases List.mem_append.mp h with h | h
        · exact keyCh_ne c '<' (by decide) (ht c h)
        · exact hlitI c h
    simp only [process_checkboxes, hs1, hs2]
  -- decode: pledge token
  have hdecP : restoreCheckboxesLine ('[' :: ((("pledge_").toList) ++ (u ++ [']'])))
      = pledgeElement ((("pledge_").toList) ++ u) := by
    have hg1 : pySearch (fun l => (matchCbTok l).map fun (k, r) => (cbElement k, r))
        ('[' :: ((("pledge_").toList) ++ (u ++ [']']))) = false := by
      rw [pySearch_pledgeTok_intro]
      apply pySearch_false_of_block _ '['
      · intro c cs h; simp [matchCbTok_head c cs h]
      · rfl
      · intro c hc
        rcases List.mem_append.mp hc with h | h
        · exact keyCh_ne c '[' (by decide) (hu c h)
        · exact hlitM c h
    have hg2 : pySearch (fun l => (matchPledgeTok l).map fun (k, r) => (pledgeElement k, r))
        ('[' :: ((("pledge_").toList) ++ (u ++ [']']))) = true := by
      apply pySearch_of_match
      show ((matchPledgeTok ('[' :: ((("pledge_").toList) ++ (u ++ [']'])))).map
        (fun (k, r) => (pledgeElement k, r))).isSome = true
      rw [hptokm]
      rfl
    have hsub2 : pySub (fun l => (matchPledgeTok l).map fun (k, r) => (pledgeElement k, r))
        ('[' :: ((("pledge_").toList) ++ (u ++ [']'])))
        = pledgeElement ((("pledge_").toList) ++ u) := by
      apply pySub_single
      show (matchPledgeTok ('[' :: ((("pledge_").toList) ++ (u ++ [']'])))).map
        (fun (k, r) => (pledgeElement k, r))
        = some (pledgeElement ((("pledge_").toList) ++ u), [])
      rw [hptokm]
      rfl
    simp only [restoreCheckboxesLine, hg1, Bool.false_eq_true, if_false, hg2, if_true,
      hsub2]
  -- encode: pledge element
  have hencP : process_checkboxes (pledgeElement ((("pledge_").toList) ++ u))
      = '[' :: ((("pledge_").toList) ++ (u ++ [']'])) := by
    have hre : pledgeElement ((("pledge_").toList) ++ u)
        = '<' :: ((("input type=\x27checkbox\x27 checked name=\x22").toList) ++
          (((("pledge_").toList) ++ u) ++ (("\x22 class=\x22data-input\x22 />").toList))) := by
      rw [pledgeElement_split]
      rfl
    have hs1 : pySub (fun l => (matchCbElem l).map fun (k, r) => ('[' :: k ++ [']'], r))
        (pledgeElement ((("pledge_").toList) ++ u))
        = pledgeElement ((("pledge_").toList) ++ u) := by
      rw [hre]
      apply pySub_id_head _ '<'
      · intro c cs h; simp [matchCbElem_head c cs h]
      · rw [← hre]
        show (matchCbElem (pledgeElement ((("pledge_").toList) ++ u))).map
          (fun (k, r) => ('[' :: k ++ [']'], r)) = none
        rw [matchCbElem_on_pledge u hu]
        rfl
      · intro c hc
        rcases List.mem_append.mp hc with h | h
        · exact hlitJ c h
        rcases List.mem_append.mp h with h | h
        · rcases List.mem_append.mp h with h | h
          · exact hlitK c h
          · exact keyCh_ne c '<' (by decide) (hu c h)
        · exact hlitL c h
    have hs2 : pySub (fun l => (matchPledgeElem l).map fun (k, r) => ('[' :: k ++ [']'], r))
        (pledgeElement ((("pledge_").toList) ++ u))
        = '[' :: ((("pledge_").toList) ++ (u ++ [']'])) := by
      have := pySub_single' (fun l => (matchPledgeElem l).map fun (k, r) => ('[' :: k ++ [']'], r))
        (pledgeElement ((("pledge_").toList) ++ u)) ('[' :: ((("pledge_").toList) ++ u ++ [']']))
        (by show (matchPledgeElem (pledgeElement ((("pledge_").toList) ++ u))).map
              (fun (k, r) => ('[' :: k ++ [']'], r))
            = some ('[' :: ((("pledge_").toList) ++ u ++ [']']), [])
            rw [hpelm]
            rfl)
        (by rw [pledgeElement_split]; simp)
      rw [this]
      simp [List.append_assoc]
    simp only [process_checkboxes, hs1, hs2]
  refine ⟨⟨hdecCb, hencCb, ?_⟩, ⟨hdecP, hencP, ?_⟩⟩
  · rw [hdecCb, hencCb, hdecCb]
  · rw [hdecP, hencP, hdecP]

/-- C3, witness: the canonicalization statement at the concrete
identifiers `cb-1-1` and `pledge_1_1_1`. -/
theorem claim3_witness :
    (restoreCheckboxesLine (("[cb-1-1]").toList) = cbElement (("cb-1-1").toList) ∧
      process_checkboxes (cbElement (("cb-1-1").toList)) = ("[cb-1-1]").toList ∧
      restoreCheckboxesLine (process_checkboxes (restoreCheckboxesLine (("[cb-1-1]").toList)))
        = restoreCheckboxesLine (("[cb-1-1]").toList)) ∧
    (restoreCheckboxesLine (("[pledge_1_1_1]").toList)
        = pledgeElement (("pledge_1_1_1").toList) ∧
      process_checkboxes (pledgeElement (("pledge_1_1_1").toList)) = ("[pledge_1_1_1]").toList ∧
      restoreCheckboxesLine (process_checkboxes (restoreCheckboxesLine (("[pledge_1_1_1]").toList)))
        = restoreCheckboxesLine (("[pledge_1_1_1]").toList)) :=
  claim3_control_canonicalization (("1-1").toList) (("1_1_1").toList)
    (by decide) (by decide) (by decide) (by decide)

/-- C5: for a content line (neither block start nor block end) at
nesting depth `d`, the flattening step strips exactly `4 × d` columns
when the line has at least that many leading spaces; otherwise it emits
a blank line for a blank input and strips all leading whitespace for a
non-blank one.  The depth is unchanged by a content line. -/
theorem claim5_flatten_content_rule (d : Nat) (line : List Char)
    (hstart : isStartLine line = false) (hend : isEndLine line = false) :
    (unindentStep (d : Int) line).2 = (d : Int) ∧
    ((unindentStep (d : Int) line).1).head? = some
      (if 4 * d ≤ (line.takeWhile (fun c => c == ' ')).length then line.drop (4 * d)
       else if pyStrip line == [] then []
       else pyLstrip line) := by
  have harith : ((d : Int) * 4).toNat = 4 * d := by omega
  simp only [unindentStep, hstart, Bool.false_eq_true, if_false, hend, harith]
  by_cases hge : 4 * d ≤ (line.takeWhile (fun c => c == ' ')).length
  · have hge' : ((line.takeWhile (fun c => c == ' ')).length : Int) ≥ (d : Int) * 4 := by
      omega
    simp only [ge_iff_le, hge', if_true, hge]
    split <;> simp
  · have hge' : ¬ ((line.takeWhile (fun c => c == ' ')).length : Int) ≥ (d : Int) * 4 := by
      omega
    simp only [ge_iff_le, hge', if_false, hge]
    split <;> split <;> simp

/-- C5, witness: the content rule at depth 1 on a line with eight
leading spaces, and the concrete result of the step there. -/
theorem claim5_witness :
    (unindentStep ((1 : Nat) : Int) (("        x").toList)).2 = ((1 : Nat) : Int) ∧
    ((unindentStep ((1 : Nat) : Int) (("        x").toList)).1).head? = some
      (if 4 * 1 ≤ ((("        x").toList).takeWhile (fun c => c == ' ')).length
       then (("        x").toList).drop (4 * 1)
       else if pyStrip (("        x").toList) == [] then []
       else pyLstrip (("        x").toList)) :=
  claim5_flatten_content_rule 1 (("        x").toList) (by decide) (by decide)

/-!  Lemmas for the depth and stack safety claim. -/

theorem unindentStep_nonneg (d : Int) (line : List Char) (h : 0 ≤ d) :
    0 ≤ (unindentStep d line).2 := by
  by_cases h1 : isStartLine line = true
  · simp only [unindentStep, h1, if_true]
    omega
  · rw [Bool.not_eq_true] at h1
    by_cases h2 : isEndLine line = true
    · simp only [unindentStep, h1, Bool.false_eq_true, if_false, h2, if_true]
      show 0 ≤ (if d - 1 < 0 then 0 else d - 1)
      split <;> omega
    · rw [Bool.not_eq_true] at h2
      simp only [unindentStep, h1, Bool.false_eq_true, if_false, h2,
        apply_ite Prod.snd, ite_self]
      exact h

theorem foldl_unindent_nonneg (lines : List (List Char)) :
    ∀ d : Int, 0 ≤ d → 0 ≤ lines.foldl (fun d l => (unindentStep d l).2) d := by
  induction lines with
  | nil => intro d h; simpa using h
  | cons l ls ih =>
    intro d h
    simp only [List.foldl_cons]
    exact ih _ (unindentStep_nonneg d l h)

theorem handleLine_stack_inv (st : RecSt) (line : List Char)
    (pre : List (Nat × Option (List Char)))
    (hpre : st.stack = pre ++ [((0 : Nat), (none : Option (List Char)))]) :
    ∃ pre2, (handleLine st line).stack
      = pre2 ++ [((0 : Nat), (none : Option (List Char)))] := by
  cases hm : matchStart line with
  | some g =>
    obtain ⟨ty, rest⟩ := g
    simp only [handleLine, hm]
    rw [hpre, ← List.cons_append]
    exact ⟨_, rfl⟩
  | none =>
    simp only [handleLine, hm]
    by_cases hend : isEndLine line
    · simp only [hend, if_true]
      by_cases hlen : st.stack.length > 1
      · simp only [hlen, if_true]
        cases pre with
        | nil => rw [hpre] at hlen; simp at hlen
        | cons p pre2 =>
          refine ⟨pre2, ?_⟩
          simp [hpre]
      · simp only [hlen, if_false]
        exact ⟨pre, hpre⟩
    · rw [Bool.not_eq_true] at hend
      simp only [hend, Bool.false_eq_true, if_false]
      refine ⟨pre, ?_⟩
      split
      · simpa using hpre
      split
      · simpa using hpre
      · simpa using hpre

theorem processLine_stack_inv (st : PCSt) (line : List Char)
    (h : ∃ pre, st.stack = pre ++ [((0 : Nat), (none : Option (List Char)))]) :
    ∃ pre, (processLine st line).stack
      = pre ++ [((0 : Nat), (none : Option (List Char)))] := by
  unfold processLine
  cases hm : searchFileMarker line with
  | some n => exact ⟨[], rfl⟩
  | none =>
    cases hcf : st.currentFile with
    | none => simpa using h
    | some f =>
      obtain ⟨pre, hpre⟩ := h
      simp only []
      exact handleLine_stack_inv ⟨st.stack, st.buffer⟩ (unescapeLine line) pre hpre

theorem foldl_process_stack_inv (lines : List (List Char)) :
    ∀ st : PCSt, (∃ pre, st.stack = pre ++ [((0 : Nat), (none : Option (List Char)))]) →
    ∃ pre, (lines.foldl processLine st).stack
      = pre ++ [((0 : Nat), (none : Option (List Char)))] := by
  induction lines with
  | nil => intro st h; simpa using h
  | cons l ls ih =>
    intro st h
    simp only [List.foldl_cons]
    exact ih _ (processLine_stack_inv st l h)

/-- C4: the two engines are total functions of their input (they are
defined for every input text, so neither can raise), the flattening
engine's depth — decremented and clamped at zero on each block-end
marker, matched or not — never goes negative from the initial depth 0,
and the reconstruction engine's indent stack always keeps its seed
frame `(0, none)` at the bottom: a pop never removes it, so every line
after an unmatched end marker is still processed against a stack with
indent ≥ 0.  Quantifying over all line lists covers every prefix of a
run, hence every intermediate state. -/
theorem claim4_depth_clamping_safety :
    (∀ lines : List (List Char), 0 ≤ unindentDepthAfter lines) ∧
    (∀ lines : List (List Char), pcStackAfter lines ≠ [] ∧
      (pcStackAfter lines).getLast? = some ((0 : Nat), (none : Option (List Char)))) := by
  constructor
  · intro lines
    exact foldl_unindent_nonneg lines 0 le_rfl
  · intro lines
    obtain ⟨pre, hpre⟩ := foldl_process_stack_inv lines initPCSt ⟨[], rfl⟩
    constructor
    · rw [pcStackAfter, hpre]
      simp
    · rw [pcStackAfter, hpre]
      simp

/-- C6: a block-start line at current stack indent `c` is emitted
indented by exactly `c` spaces and pushes a frame at `c` plus the
per-type increment: +2 for an html block whose parameter mentions
`ul.tasklist`, +2 for an html block whose parameter mentions `li`, +4
for any other html block, +0 for details, +4 for every other type;
inside a details block, content whose stripped form starts with `type:`
or `open:` is emitted at the block indent +4, and all other content at
the block indent itself. -/
theorem claim6_reconstruction_indents :
    (∀ (st : RecSt) (line ty rest : List Char), matchStart line = some (ty, rest) →
      handleLine st line =
        { stack := ((st.stack.headD (0, none)).1 +
            (if ty = ("html").toList then
              (if containsSub (("ul.tasklist").toList) rest then 2
               else if containsSub (("li").toList) rest then 2 else 4)
             else if ty = ("details").toList then 0 else 4), some ty) :: st.stack,
          buffer := st.buffer ++
            [List.replicate (st.stack.headD (0, none)).1 ' ' ++ line] }) ∧
    (∀ (st : RecSt) (line : List Char), matchStart line = none →
      isEndLine line = false →
      (st.stack.headD (0, none)).2 = some (("details").toList) →
      handleLine st line =
        { stack := st.stack,
          buffer := st.buffer ++
            [if startsWith (("type:").toList) (pyStrip line) ||
                startsWith (("open:").toList) (pyStrip line)
             then List.replicate ((st.stack.headD (0, none)).1 + 4) ' ' ++ line
             else List.replicate (st.stack.headD (0, none)).1 ' ' ++ line] }) := by
  constructor
  · intro st line ty rest hm
    simp only [handleLine, hm]
    by_cases h1 : ty = ("html").toList
    · have hb1 : (ty == ("html").toList) = true := beq_iff_eq.mpr h1
      simp [hb1, h1]
    · have hb1 : (ty == ("html").toList) = false := beq_eq_false_iff_ne.mpr h1
      by_cases h2 : ty = ("details").toList
      · have hb2 : (ty == ("details").toList) = true := beq_iff_eq.mpr h2
        simp [hb1, h1, hb2, h2]
      · have hb2 : (ty == ("details").toList) = false := beq_eq_false_iff_ne.mpr h2
        simp [hb1, h1, hb2, h2]
  · intro st line hm hend hdet
    simp only [handleLine, hm, hend, Bool.false_eq_true, if_false]
    have hb : ((st.stack.headD (0, none)).2 == some (("details").toList)) = true := by
      rw [hdet]
      exact beq_self_eq_true _
    simp only [hb, if_true]

/-- C6, witness: the start rule at a root-level `/// html | ul.tasklist`
line (increment +2) and the details-content rule on a `type: info` line
inside a details block at indent 4. -/
theorem claim6_witness :
    handleLine ⟨[((0 : Nat), none)], []⟩ (("/// html | ul.tasklist").toList) =
      { stack := [(((⟨[((0 : Nat), none)], []⟩ : RecSt).stack.headD (0, none)).1 +
          (if ("html").toList = ("html").toList then
            (if containsSub (("ul.tasklist").toList) ((" | ul.tasklist").toList) then 2
             else if containsSub (("li").toList) ((" | ul.tasklist").toList) then 2 else 4)
           else if ("html").toList = ("details").toList then 0 else 4), some (("html").toList)),
          ((0 : Nat), none)],
        buffer := [List.replicate 0 ' ' ++ (("/// html | ul.tasklist").toList)] } ∧
    handleLine ⟨[((4 : Nat), some (("details").toList))], []⟩ (("type: info").toList) =
      { stack := [((4 : Nat), some (("details").toList))],
        buffer := [if startsWith (("type:").toList) (pyStrip (("type: info").toList)) ||
            startsWith (("open:").toList) (pyStrip (("type: info").toList))
          then List.replicate (4 + 4) ' ' ++ (("type: info").toList)
          else List.replicate 4 ' ' ++ (("type: info").toList)] } :=
  ⟨claim6_reconstruction_indents.1 ⟨[((0 : Nat), none)], []⟩
      (("/// html | ul.tasklist").toList) (("html").toList) ((" | ul.tasklist").toList)
      (by decide),
   claim6_reconstruction_indents.2 ⟨[((4 : Nat), some (("details").toList))], []⟩
      (("type: info").toList) (by decide) (by decide) (by decide)⟩

/-!  Lemmas for the import pre-pass. -/

theorem rfindAux_prefix (needle l : List Char) (k : Nat)
    (h : rfindAux needle l = some k) : startsWith needle (l.drop k) = true := by
  induction l generalizing k with
  | nil => simp [rfindAux] at h
  | cons c cs ih =>
    simp only [rfindAux] at h
    cases hr : rfindAux needle cs with
    | some k2 =>
      rw [hr] at h
      injection h with h
      subst h
      simpa using ih k2 hr
    | none =>
      rw [hr] at h
      by_cases hs : startsWith needle (c :: cs) = true
      · simp only [hs, if_true] at h
        injection h with h
        subst h
        simpa using hs
      · simp only [hs, Bool.false_eq_true, if_false] at h
        cases h

theorem rfindAux_isSome (needle l : List Char) (j : Nat)
    (h : startsWith needle (l.drop j) = true) (hne : needle ≠ []) :
    (rfindAux needle l).isSome = true := by
  induction l generalizing j with
  | nil =>
    cases needle with
    | nil => exact absurd rfl hne
    | cons n ns => simp [startsWith] at h
  | cons c cs ih =>
    cases j with
    | zero =>
      simp only [rfindAux]
      cases hr : rfindAux needle cs with
      | some k => rfl
      | none => simp [List.drop] at h; simp [h]
    | succ j2 =>
      have := ih j2 (by simpa using h)
      simp only [rfindAux]
      cases hr : rfindAux needle cs with
      | some k => rfl
      | none => rw [hr] at this; simp at this

theorem searchEndTag_occurrence (l : List Char) (h : searchEndTag l = true) :
    ∃ j, startsWith (("///").toList) (l.drop j) = true := by
  induction l with
  | nil => simp [searchEndTag] at h
  | cons c cs ih =>
    simp only [searchEndTag, Bool.or_eq_true, Bool.and_eq_true] at h
    rcases h with ⟨⟨_, hsw⟩, _⟩ | h
    · exact ⟨1, by simpa using hsw⟩
    · obtain ⟨j, hj⟩ := ih h
      exact ⟨j + 1, by simpa using hj⟩

/-- C7, counterexample: the line `x///` ends with the end-sigil and does
not consist solely of it, yet the pre-pass leaves it unchanged — the
code additionally requires a whitespace character before the sigil
(regex `\s///\s*$`), which `x///` lacks. -/
theorem claim7_counterexample :
    prePassLine (("x///").toList) ≠ [("x").toList, ("///").toList] ∧
    prePassLine (("x///").toList) = [("x///").toList] := by
  constructor
  · decide
  · decide

/-- C7, amended: a line is split by the pre-pass exactly when its
stripped form ends in `///` without being exactly `///` AND the line
matches `\s///\s*$` (whitespace required before the sigil); it is then
split at the last occurrence of `///` into `line[:k]` and `line[k:]`
(so the second piece starts with the sigil and may carry the line's
trailing whitespace).  All other lines pass through unchanged. -/
theorem claim7_prepass_split :
    (∀ l : List Char,
      (endsWithL (("///").toList) (pyStrip l) && (pyStrip l != ("///").toList) &&
        searchEndTag l) = true →
      ∃ k, rfindAux (("///").toList) l = some k ∧
        prePassLine l = [l.take k, l.drop k] ∧
        startsWith (("///").toList) (l.drop k) = true ∧
        l.take k ++ l.drop k = l) ∧
    (∀ l : List Char,
      (endsWithL (("///").toList) (pyStrip l) && (pyStrip l != ("///").toList) &&
        searchEndTag l) = false →
      prePassLine l = [l]) := by
  constructor
  · intro l hc
    rw [Bool.and_eq_true, Bool.and_eq_true] at hc
    obtain ⟨⟨h1, h2⟩, h3⟩ := hc
    obtain ⟨j, hj⟩ := searchEndTag_occurrence l h3
    have hsome := rfindAux_isSome (("///").toList) l j hj (by decide)
    cases hr : rfindAux (("///").toList) l with
    | none => rw [hr] at hsome; simp at hsome
    | some k =>
      refine ⟨k, rfl, ?_, rfindAux_prefix _ l k hr, List.take_append_drop k l⟩
      simp only [prePassLine, h1, h2, Bool.and_self, if_true, h3, hr]
      have hnn : ¬ ((k : Int) < 0) := by omega
      simp [pySliceTo, pySliceFrom, hnn]
  · intro l hc
    by_cases h1 : (endsWithL (("///").toList) (pyStrip l) &&
        (pyStrip l != ("///").toList)) = true
    · have h3 : searchEndTag l = false := by
        by_contra hC
        rw [Bool.not_eq_false] at hC
        rw [h1, hC] at hc
        simp at hc
      have hAB := h1
      rw [Bool.and_eq_true] at hAB
      simp [prePassLine, hAB.1, hAB.2, h3]
    · rw [Bool.not_eq_true] at h1
      simp only [prePassLine]
      rw [if_neg (fun hAB => by rw [hAB] at h1; cases h1)]

/-- C7, witness: the amended statement at the line `a ///`, which the
pre-pass splits at index 2, and at `x y`, which passes through. -/
theorem claim7_witness :
    (∃ k, rfindAux (("///").toList) (("a ///").toList) = some k ∧
      prePassLine (("a ///").toList)
        = [(("a ///").toList).take k, (("a ///").toList).drop k] ∧
      startsWith (("///").toList) ((("a ///").toList).drop k) = true ∧
      (("a ///").toList).take k ++ (("a ///").toList).drop k = ("a ///").toList) ∧
    prePassLine (("x y").toList) = [("x y").toList] :=
  ⟨claim7_prepass_split.1 (("a ///").toList) (by decide),
   claim7_prepass_split.2 (("x y").toList) (by decide)⟩

/-- C9: in the effect trace of the import `main`, the completed
reconstruction of all units (`process_content` over the whole linear
document) is the first event, and every later event is the write of one
unit whose content is the unit's fully restored text
(`finalize_unit` = link restore, attribute restore, checkbox restore,
join, blank-run collapse).  So no unit file is ever written before the
reconstruction of every unit has succeeded, and no write carries a
partially transformed unit: an exception at any step aborts with each
already-written unit complete and each remaining unit untouched. -/
theorem claim9_import_write_ordering :
    ∀ content : List Char,
      (import_trace content).head?
        = some (ImportEv.reconstructed (process_content content)) ∧
      (∀ i : Nat, 0 < i →
        ∀ e, (import_trace content).get? i = some e →
          ∃ p ∈ process_content content,
            e = ImportEv.wrote p.1 (finalize_unit p.1 p.2)) := by
  intro content
  constructor
  · rfl
  · intro i hpos e he
    cases i with
    | zero => exact absurd hpos (lt_irrefl 0)
    | succ j =>
      simp only [import_trace, List.get?_eq_getElem?, List.getElem?_cons_succ,
        List.getElem?_map] at he
      cases hp : (process_content content)[j]? with
      | none => rw [hp] at he; simp at he
      | some p =>
        rw [hp] at he
        simp only [Option.map_some'] at he
        injection he with he
        exact ⟨p, List.getElem?_mem hp, he.symm⟩

/-- C9, witness: the ordering statement on a two-line linear document
holding one unit; the single write event carries the fully restored
unit text. -/
theorem claim9_witness :
    ∃ p ∈ process_content (("**=== FILE: introduction.md ===**\nhello").toList),
      ImportEv.wrote (("introduction.md").toList) (("hello").toList)
        = ImportEv.wrote p.1 (finalize_unit p.1 p.2) :=
  (claim9_import_write_ordering (("**=== FILE: introduction.md ===**\nhello").toList)).2
    1 (by decide) (ImportEv.wrote (("introduction.md").toList) (("hello").toList))
    (by decide)

/-!  Lemma for the anonymizer. -/

theorem lookup_anonRow (r : Row) (k : List Char) :
    (anonRow r).lookup k
      = if k ∈ EXCLUDED_COLUMNS then none else r.lookup k := by
  induction r with
  | nil =>
    simp only [anonRow, List.filter_nil, List.lookup]
    split <;> rfl
  | cons kv r ih =>
    by_cases hx : kv.1 ∈ EXCLUDED_COLUMNS
    · have hdrop : anonRow (kv :: r) = anonRow r := by
        simp [anonRow, List.filter_cons, hx]
      rw [hdrop, ih]
      by_cases hk : k ∈ EXCLUDED_COLUMNS
      · simp [hk]
      · have hne : (k == kv.1) = false :=
          beq_eq_false_iff_ne.mpr (fun he => hk (he ▸ hx))
        simp [hk, List.lookup, hne]
    · have hkeep : anonRow (kv :: r) = kv :: anonRow r := by
        simp [anonRow, List.filter_cons, hx]
      rw [hkeep]
      by_cases heq : (k == kv.1) = true
      · have hkk : k = kv.1 := beq_iff_eq.mp heq
        have hknx : ¬ k ∈ EXCLUDED_COLUMNS := fun hh => hx (hkk ▸ hh)
        simp [List.lookup, heq, hknx]
      · rw [Bool.not_eq_true] at heq
        simp only [List.lookup, heq]
        exact ih

/-- C10: every record produced by `anonymize_data` contains none of the
keys of `EXCLUDED_COLUMNS`, maps every other key to its unchanged input
value, and any two input records agreeing on all non-excluded columns
anonymize to records with identical column-to-value mappings, so no
excluded field can influence the exported output. -/
theorem claim10_anonymize_noninterference :
    ∀ (data : List Row) (r : Row), r ∈ data →
      anonRow r ∈ anonymize_data data ∧
      (∀ k, k ∈ EXCLUDED_COLUMNS → (anonRow r).lookup k = none) ∧
      (∀ k, ¬ k ∈ EXCLUDED_COLUMNS → (anonRow r).lookup k = r.lookup k) ∧
      (∀ r2 : Row, (∀ k, ¬ k ∈ EXCLUDED_COLUMNS → r.lookup k = r2.lookup k) →
        ∀ k, (anonRow r).lookup k = (anonRow r2).lookup k) := by
  intro data r hr
  refine ⟨?_, ?_, ?_, ?_⟩
  · have hne : data.isEmpty = false := by
      cases data with
      | nil => cases hr
      | cons a as => rfl
    simp only [anonymize_data, hne, Bool.false_eq_true, if_false]
    exact List.mem_map_of_mem anonRow hr
  · intro k hk
    rw [lookup_anonRow, if_pos hk]
  · intro k hk
    rw [lookup_anonRow, if_neg hk]
  · intro r2 hagree k
    rw [lookup_anonRow, lookup_anonRow]
    by_cases hk : k ∈ EXCLUDED_COLUMNS
    · simp [hk]
    · simp only [hk, if_false]
      exact hagree k hk

/-- C10, witness: the statement at a one-record data set holding an
`email` column (excluded) and an `id` column (kept). -/
theorem claim10_witness :
    anonRow [((("email").toList), ("x").toList), ((("id").toList), ("1").toList)]
        ∈ anonymize_data [[((("email").toList), ("x").toList),
            ((("id").toList), ("1").toList)]] ∧
      (anonRow [((("email").toList), ("x").toList), ((("id").toList), ("1").toList)]).lookup
        (("email").toList) = none ∧
      (anonRow [((("email").toList), ("x").toList), ((("id").toList), ("1").toList)]).lookup
        (("id").toList)
        = ([((("email").toList), ("x").toList), ((("id").toList), ("1").toList)] : Row).lookup
            (("id").toList) := by
  have h := claim10_anonymize_noninterference
    [[((("email").toList), ("x").toList), ((("id").toList), ("1").toList)]]
    [((("email").toList), ("x").toList), ((("id").toList), ("1").toList)] (by decide)
  exact ⟨h.1, h.2.1 (("email").toList) (by decide), h.2.2.1 (("id").toList) (by decide)⟩

end EEG101
